import Mathlib

/- Verification development for the PrecisionFDA AI Agent chat widget
   (server.js).  The file embeds the two pieces of program logic the
   specification describes — the response annotator
   (sanitizeAssistantResponse / unifyConsecutiveReferences /
   linkReferences) and the thread/run/poll network client
   (createThreadWithMessage) — as executable Lean functions, and proves
   the specification's claims about them.

   Strings are modelled as `List Char` (JavaScript strings are sequences
   of UTF-16 code units; every character appearing here is a single
   unit).  Scanning functions that consume a variable number of
   characters per step are written with an explicit fuel argument,
   structurally recursive on the fuel; the public wrapper passes the
   length of the input, which is always sufficient because every step
   consumes at least one character.  Fuel exhaustion returns the rest of
   the input unchanged and is unreachable from the wrappers. -/

set_option maxRecDepth 100000

namespace PFDA

/-- ASCII lower-casing of a character, as used to model the /gi flag on
the regexes of server.js (all case-insensitive literals there are ASCII). -/
def lowerChar (c : Char) : Char := c.toLower

/-- Lower-case an entire character list. -/
def lowerL (l : List Char) : List Char := l.map lowerChar

/-- Boolean check that `p` is a prefix of `l`. -/
def lpre : List Char → List Char → Bool
  | [], _ => true
  | _ :: _, [] => false
  | a :: as, b :: bs => a = b && lpre as bs

/-- Case-insensitive prefix check (regex /i semantics for ASCII literals). -/
def lpreCI (p l : List Char) : Bool := lpre (lowerL p) (lowerL l)

/-- Boolean check that `p` occurs as a contiguous substring of `l`. -/
def subOcc (p : List Char) : List Char → Bool
  | [] => lpre p []
  | c :: rest => lpre p (c :: rest) || subOcc p rest

/-- The JavaScript regex \s character class (also the character set
removed by String.prototype.trim): ASCII whitespace, NBSP, the Unicode
space separators, line/paragraph separators and the BOM. -/
def isJsWs (c : Char) : Bool :=
  c = ' ' || c = '\t' || c = '\n' || c = '\x0b' || c = '\x0c' || c = '\r' ||
  c = '\u00a0' || c = '\u1680' || ('\u2000' ≤ c && c ≤ '\u200a') ||
  c = '\u2028' || c = '\u2029' || c = '\u202f' || c = '\u205f' ||
  c = '\u3000' || c = '\ufeff'

/-- Embedding of `text.replace(/#+\s?/g, '')` (server.js line 542) as a
character-by-character state machine: the flag records whether the
previous character was part of a run of '#', in which case one following
whitespace character is also removed. -/
def stripHashGo : Bool → List Char → List Char
  | _, [] => []
  | inHash, c :: rest =>
    if c = '#' then stripHashGo true rest
    else if inHash && isJsWs c then stripHashGo false rest
    else c :: stripHashGo false rest

/-- Embedding of `text.replace(/\*\*/g, '')` (server.js line 543). -/
def stripStars : List Char → List Char
  | [] => []
  | [c] => [c]
  | c :: d :: rest =>
    if c = '*' ∧ d = '*' then stripStars rest
    else c :: stripStars (d :: rest)

/-- Embedding of `text.replace(/\[[^\]]*\]/g, '')` (server.js line 545).
The state buffers (reversed) the characters seen since an unmatched '[';
if the input ends before a ']' the buffered segment is emitted verbatim,
matching the regex (which requires a closing bracket). -/
def stripBracketsGo : Option (List Char) → List Char → List Char
  | none, [] => []
  | some acc, [] => '[' :: acc.reverse
  | none, c :: rest =>
    if c = '[' then stripBracketsGo (some []) rest
    else c :: stripBracketsGo none rest
  | some acc, c :: rest =>
    if c = ']' then stripBracketsGo none rest
    else stripBracketsGo (some (c :: acc)) rest

/-- Fueled embedding of `text.replace(/(Phrase)/gi, '<strong>$1</strong>')`
(server.js lines 548–552): scan left to right; at a case-insensitive
occurrence of the phrase wrap the original matched characters in
strong tags and continue after the match.  The `p ≠ []` guard only rules
out the degenerate empty pattern, which never occurs (all five phrases
of server.js are non-empty). -/
def boldPhraseF (p : List Char) : Nat → List Char → List Char
  | 0, cs => cs
  | _ + 1, [] => []
  | fuel + 1, c :: rest =>
    if p ≠ [] ∧ lpreCI p (c :: rest) then
      "<strong>".toList ++ (c :: rest).take p.length ++ "</strong>".toList ++
        boldPhraseF p fuel ((c :: rest).drop p.length)
    else c :: boldPhraseF p fuel rest

/-- Wrapper supplying sufficient fuel. -/
def boldPhrase (p cs : List Char) : List Char := boldPhraseF p cs.length cs

/-- The five heading phrases bolded by sanitizeAssistantResponse, in the
order the five replace calls are applied. -/
def headingPhrases : List (List Char) :=
  ["Question Asked".toList, "Extracted Insight".toList,
   "Document Section/Page".toList, "Confidence Score".toList,
   "Additional Notes".toList]

/-- The five sequential bolding passes of server.js lines 548–552. -/
def boldHeadings (cs : List Char) : List Char :=
  boldPhrase "Additional Notes".toList
    (boldPhrase "Confidence Score".toList
      (boldPhrase "Document Section/Page".toList
        (boldPhrase "Extracted Insight".toList
          (boldPhrase "Question Asked".toList cs))))

/-- The referenceDetailsMap lookup dictionary (server.js lines 53–63). -/
def referenceDetailsMap (code : List Char) : Option (List Char) :=
  if code = "4:8".toList then some "Page 12, Section 4.8".toList
  else if code = "4:14".toList then some "Page 18, Section 2".toList
  else if code = "4:19".toList then some "Page 20, Appendix B".toList
  else if code = "4:4".toList then some "Page 7, Section 1.3".toList
  else if code = "4:7".toList then some "Page 10, Section 2.1".toList
  else if code = "4:13".toList then some "Page 16, Section 3.3".toList
  else if code = "4:20".toList then some "Page 22, Nanomaterials Guidance".toList
  else if code = "4:21".toList then some "Page 24, GMP Guidelines".toList
  else if code = "4:5".toList then some "Page 8, Contact Details".toList
  else none

/-- `referenceDetailsMap[refCode] || "FDA Guidance"` (server.js line 122). -/
def resolveCode (code : List Char) : List Char :=
  match referenceDetailsMap code with
  | some d => d
  | none => "FDA Guidance".toList

/-- Position of the first occurrence of `d` (length of the list when
absent), mirroring Array.prototype.indexOf on the collected references. -/
def idxOf (d : List Char) : List (List Char) → Nat
  | [] => 0
  | e :: rest => if e = d then 0 else idxOf d rest + 1

/-- The loop body of the unifyConsecutiveReferences replacement callback
(server.js lines 119–132): for each reference code of a run, resolve it,
append the resolved citation to the collected references if it is new,
and record its 1-based index in the run's index list if not already
recorded. -/
def collectRun : List (List Char) → List (List Char) → List Nat →
    List (List Char) × List Nat
  | [], coll, idxs => (coll, idxs)
  | code :: rest, coll, idxs =>
    let d := resolveCode code
    let coll' := if d ∈ coll then coll else coll ++ [d]
    let i := idxOf d coll' + 1
    let idxs' := if i ∈ idxs then idxs else idxs ++ [i]
    collectRun rest coll' idxs'

/-- Comma-separated decimal rendering of the run's indices, as produced
by `refIndices.join(',')` (identical to the single-index branch when the
list is a singleton). -/
def joinComma : List Nat → List Char
  | [] => []
  | [i] => (Nat.repr i).toList
  | i :: rest => (Nat.repr i).toList ++ ',' :: joinComma rest

/-- The superscript block `<sup>[...]</sup>` replacing a run. -/
def supBlock (idxs : List Nat) : List Char :=
  "<sup>[".toList ++ joinComma idxs ++ "]</sup>".toList

/-- The literal tail `†source】` of a reference marker. -/
def srcTail : List Char := "†source】".toList

/-- The full marker text `【code†source】` for a reference code. -/
def markerText (code : List Char) : List Char := '【' :: (code ++ srcTail)

/-- Concatenated marker text of a run of consecutive reference markers. -/
def runText (codes : List (List Char)) : List Char :=
  (codes.map markerText).flatten

/-- The character class `[^†]` of the marker regex. -/
def notDagger (a : Char) : Bool := a ≠ '†'

/-- Parse one reference marker `【code†source】` at the head of the input:
the code is the maximal non-empty run of non-'†' characters after '【'
(regex `[^†]+`, which cannot backtrack past the first '†'), followed by
the literal `†source】`.  Returns the code and the rest of the input. -/
def tryMarker (cs : List Char) : Option (List Char × List Char) :=
  match cs with
  | [] => none
  | c :: rest =>
    if c = '【' then
      if rest.takeWhile notDagger = [] then none
      else if lpre srcTail (rest.dropWhile notDagger) then
        some (rest.takeWhile notDagger, (rest.dropWhile notDagger).drop 8)
      else none
    else none

/-- Parse a maximal run of one or more consecutive reference markers
(regex `(?:【[^†]+†source】)+`, greedy) at the head of the input. -/
def parseRunF : Nat → List Char → Option (List (List Char) × List Char)
  | 0, _ => none
  | fuel + 1, cs =>
    match tryMarker cs with
    | none => none
    | some (code, rest) =>
      match parseRunF fuel rest with
      | none => some ([code], rest)
      | some (codes, rest') => some (code :: codes, rest')

/-- Wrapper supplying sufficient fuel (each marker consumes at least ten
characters, so the input length bounds the number of markers). -/
def parseRun (cs : List Char) : Option (List (List Char) × List Char) :=
  parseRunF cs.length cs

/-- Whether any suffix of the text begins with a complete reference
marker, i.e. whether the marker regex matches anywhere. -/
def hasMarker (x : List Char) : Bool :=
  x.tails.any (fun s => (tryMarker s).isSome)

/-- Fueled embedding of unifyConsecutiveReferences (server.js lines
112–142): global scan; each maximal run of consecutive markers is
replaced by a single superscript block holding the run's deduplicated
indices sorted ascending (the `sort((a, b) => a - b)` call on the
duplicate-free index list, modelled by insertion sort), threading the
collectedReferences state. -/
def unifyAuxF : Nat → List Char → List (List Char) →
    List Char × List (List Char)
  | 0, cs, coll => (cs, coll)
  | _ + 1, [], coll => ([], coll)
  | fuel + 1, c :: rest, coll =>
    match parseRun (c :: rest) with
    | some (codes, rest') =>
      let p := collectRun codes coll []
      let r := unifyAuxF fuel rest' p.1
      (supBlock (List.insertionSort (· ≤ ·) p.2) ++ r.1, r.2)
    | none =>
      let r := unifyAuxF fuel rest coll
      (c :: r.1, r.2)

/-- Wrapper supplying sufficient fuel: unifyConsecutiveReferences applied
to a text with a given incoming collectedReferences state, returning the
rewritten text and the updated state. -/
def unifyConsecutiveReferences (cs : List Char) (coll : List (List Char)) :
    List Char × List (List Char) :=
  unifyAuxF cs.length cs coll

/-- The replacement text of linkReferences before the captured group
(the template literal of server.js lines 151–154, with COLORS.primary
substituted). -/
def linkOpen : List Char :=
  ("<a href=\"https://drive.google.com/file/d/1OGt3QP7K94-P6sJFO61NodgHknDiHsXa/edit\"\n        target=\"_blank\"\n        style=\"text-decoration: none; color: #1B74BB;\">\n      ").toList

/-- The replacement text of linkReferences after the captured group. -/
def linkClose : List Char := "\n    </a>".toList

/-- The three trigger phrases of the linkReferences alternation. -/
def linkTriggers : List (List Char) :=
  ["Refer to".toList, "See".toList, "For".toList]

/-- Try the alternation `(?:Refer to|See|For)` (case-insensitive) at the
head of the input; the three branches start with distinct letters, so at
most one can match.  Returns the length of the matched trigger. -/
def findTrigger (cs : List Char) : Option Nat :=
  if lpreCI "Refer to".toList cs then some 8
  else if lpreCI "See".toList cs then some 3
  else if lpreCI "For".toList cs then some 3
  else none

/-- Length matched by the optional group `(?:,\s*Section [^)\n]+)?`:
a comma, greedy whitespace, the literal "Section " (case-insensitive)
and a non-empty greedy run of characters other than ')' and newline;
zero if any part fails (the group then matches the empty string, and no
backtracking into `\s*` can help because "Section" starts with a
non-whitespace character). -/
def tryLinkSection (r : List Char) : Nat :=
  match r with
  | ',' :: r1 =>
    let ws := r1.takeWhile isJsWs
    let r2 := r1.drop ws.length
    if lpreCI "Section ".toList r2 then
      let body := (r2.drop 8).takeWhile (fun c => c ≠ ')' && c ≠ '\n')
      if body = [] then 0 else 1 + ws.length + 8 + body.length
    else 0
  | _ => 0

/-- Try the linkReferences regex
`((?:Refer to|See|For)[^-]+ - Page \d+(?:,\s*Section [^)\n]+)?)` at the
head of the input, returning the total matched length.  Because `[^-]+`
cannot cross a '-', the match is determined by the first '-' after the
trigger: the characters before it (at least one, ending in a space) are
the `[^-]+ ` part, and the literal ` Page ` plus at least one digit must
follow the '-'. -/
def tryLink (cs : List Char) : Option Nat :=
  match findTrigger cs with
  | none => none
  | some tl =>
    let rest := cs.drop tl
    let nd := rest.takeWhile (fun c => c ≠ '-')
    if 2 ≤ nd.length ∧ nd.getLast? = some ' ' then
      match rest.dropWhile (fun c => c ≠ '-') with
      | _ :: r2 =>
        if lpreCI " Page ".toList r2 then
          let ds := (r2.drop 6).takeWhile Char.isDigit
          if ds = [] then none
          else
            some (tl + nd.length + 1 + 6 + ds.length +
              tryLinkSection ((r2.drop 6).drop ds.length))
        else none
      | _ => none
    else none

/-- Fueled embedding of linkReferences (server.js lines 148–157): global
scan wrapping each match of the pattern in the fixed anchor template,
with the captured text reproduced verbatim. -/
def linkRefsF : Nat → List Char → List Char
  | 0, cs => cs
  | _ + 1, [] => []
  | fuel + 1, c :: rest =>
    match tryLink (c :: rest) with
    | some n =>
      linkOpen ++ (c :: rest).take n ++ linkClose ++
        linkRefsF fuel ((c :: rest).drop n)
    | none => c :: linkRefsF fuel rest

/-- Wrapper supplying sufficient fuel. -/
def linkReferences (cs : List Char) : List Char := linkRefsF cs.length cs

/-- String.prototype.trim: remove leading and trailing JS whitespace. -/
def jsTrim (t : List Char) : List Char :=
  ((t.dropWhile isJsWs).reverse.dropWhile isJsWs).reverse

/-- Embedding of sanitizeAssistantResponse (server.js lines 537–561):
reset collectedReferences, strip markdown headings, bold markers and
bracketed segments, bold the five heading phrases, unify consecutive
reference markers, link reference phrases, and trim.  Returns the
rewritten text together with the final collectedReferences value. -/
def sanitizeAssistantResponse (t : List Char) :
    List Char × List (List Char) :=
  let t1 := stripHashGo false t
  let t2 := stripStars t1
  let t3 := stripBracketsGo none t2
  let t4 := boldHeadings t3
  let u := unifyConsecutiveReferences t4 []
  let t5 := linkReferences u.1
  (jsTrim t5, u.2)

/- ------------------------------------------------------------------
   The thread/run/poll network client: createThreadWithMessage
   (server.js lines 573-709).  Network interaction is modelled by a
   trace of prearranged outcomes: each of the five endpoints yields
   either a thrown network error or a response carrying the HTTP ok
   flag, the status code, and the outcome of parsing the body as JSON
   (which may itself throw).  JavaScript values are modelled by `Js`.
   ------------------------------------------------------------------ -/

/-- A thrown JavaScript error, reduced to its message. -/
structure JsError where
  message : String
deriving DecidableEq

/-- A JavaScript/JSON value as far as the client inspects one. -/
inductive Js where
  | null
  | undefV
  | bool (b : Bool)
  | num (n : Int)
  | str (s : String)
  | arr (xs : List Js)
  | obj (fields : List (String × Js))

/-- First binding of a key in an object literal, undefined if absent. -/
def lookupField : List (String × Js) → String → Js
  | [], _ => .undefV
  | (k, v) :: rest, key => if k = key then v else lookupField rest key

/-- Property access `v.k`: throws a TypeError on null or undefined,
yields undefined on primitives and on missing object keys. -/
def Js.get (v : Js) (k : String) : Except JsError Js :=
  match v with
  | .null => .error ⟨"Cannot read properties of null (reading '" ++ k ++ "')"⟩
  | .undefV => .error ⟨"Cannot read properties of undefined (reading '" ++ k ++ "')"⟩
  | .obj fs => .ok (lookupField fs k)
  | _ => .ok .undefV

/-- Optional-chaining access `v?.k`, and also plain access on a value
already known to be truthy (hence neither null nor undefined). -/
def optChainField (v : Js) (k : String) : Js :=
  match v with
  | .obj fs => lookupField fs k
  | _ => .undefV

/-- JavaScript truthiness of a value. -/
def Js.truthy : Js → Bool
  | .null => false
  | .undefV => false
  | .bool b => b
  | .num n => n != 0
  | .str s => s != ""
  | .arr _ => true
  | .obj _ => true

/-- Element access `v[0]` on a truthy value. -/
def Js.idx0 : Js → Js
  | .arr (x :: _) => x
  | .arr [] => .undefV
  | .obj fs => lookupField fs "0"
  | .str s =>
    match s.toList with
    | c :: _ => .str (String.mk [c])
    | [] => .undefV
  | _ => .undefV

/-- Strict equality of a value with a string literal (`v === 's'`). -/
def jsStrEq (v : Js) (s : String) : Bool :=
  match v with
  | .str t => t = s
  | _ => false

/-- Whether a value is undefined. -/
def Js.isUndefV : Js → Bool
  | .undefV => true
  | _ => false

/-- Lower-case hexadecimal digit. -/
def hexDigitChar (n : Nat) : Char :=
  if n < 10 then Char.ofNat ('0'.toNat + n) else Char.ofNat ('a'.toNat + n - 10)

/-- JSON string escaping of one character. -/
def jsQuoteChar (c : Char) : String :=
  if c = '"' then "\\\""
  else if c = '\\' then "\\\\"
  else if c = '\n' then "\\n"
  else if c = '\r' then "\\r"
  else if c = '\t' then "\\t"
  else if c = '\x08' then "\\b"
  else if c = '\x0c' then "\\f"
  else if c.toNat < 32 then
    "\\u00" ++ String.mk [hexDigitChar (c.toNat / 16), hexDigitChar (c.toNat % 16)]
  else String.mk [c]

/-- JSON string quoting. -/
def jsQuote (s : String) : String :=
  "\"" ++ String.join (s.toList.map jsQuoteChar) ++ "\""

mutual

/-- JSON.stringify of a value in element position (undefined inside an
array serialises as null; undefined-valued object fields are dropped). -/
def jsStringify : Js → String
  | .null => "null"
  | .undefV => "null"
  | .bool b => if b then "true" else "false"
  | .num n => toString n
  | .str s => jsQuote s
  | .arr xs => "[" ++ String.intercalate "," (jsStringifyElems xs) ++ "]"
  | .obj fs => "\x7b" ++ String.intercalate "," (jsStringifyFields fs) ++ "\x7d"

/-- Serialised elements of an array. -/
def jsStringifyElems : List Js → List String
  | [] => []
  | x :: rest => jsStringify x :: jsStringifyElems rest

/-- Serialised fields of an object, skipping undefined values. -/
def jsStringifyFields : List (String × Js) → List String
  | [] => []
  | (k, v) :: rest =>
    if v.isUndefV then jsStringifyFields rest
    else (jsQuote k ++ ":" ++ jsStringify v) :: jsStringifyFields rest

end

/-- `${JSON.stringify(v)}` as interpolated into a template literal
(stringify of undefined is undefined, which interpolates as the word). -/
def jsStringifyTop (v : Js) : String :=
  match v with
  | .undefV => "undefined"
  | _ => jsStringify v

mutual

/-- String(v) / template-literal interpolation of a value (arrays join
their elements with commas, null and undefined elements becoming empty;
objects print as [object Object]). -/
def jsToString : Js → String
  | .null => "null"
  | .undefV => "undefined"
  | .bool b => if b then "true" else "false"
  | .num n => toString n
  | .str s => s
  | .obj _ => "[object Object]"
  | .arr xs => String.intercalate "," (jsToStringElems xs)

/-- Array elements as joined by Array.prototype.toString. -/
def jsToStringElems : List Js → List String
  | [] => []
  | x :: rest =>
    (match x with
     | Js.null => ""
     | Js.undefV => ""
     | _ => jsToString x) :: jsToStringElems rest

end

/-- One fetched response: the HTTP ok flag and status code, and the
outcome of awaiting response.json(). -/
structure JsResponse where
  ok : Bool
  status : Nat
  body : Except JsError Js

/-- A network trace: the prearranged outcome of each endpoint call made
by createThreadWithMessage, with the poll endpoint indexed by the
iteration number. -/
structure NetTrace where
  createThread : Except JsError JsResponse
  addMessage : Except JsError JsResponse
  startRun : Except JsError JsResponse
  poll : Nat → Except JsError JsResponse
  getMessages : Except JsError JsResponse

/-- The fixed delay between poll iterations (setTimeout interval of
server.js line 652, in milliseconds). -/
def pollDelayMs : Nat := 1000

/-- How one poll iteration ended, as observed by the loop of server.js
lines 650-667. -/
inductive PollOutcome where
  | done (st : Js)
  | noStatus
  | threw (e : JsError)

/-- One iteration of the poll loop body (server.js lines 653-666):
fetch the run, parse its body (either may throw), return early with
'Failed to retrieve run status.' if the status field is falsy, else
yield the new status value. -/
def pollOnce (r : Except JsError JsResponse) : Except PollOutcome Js :=
  match r with
  | .error e => .error (.threw e)
  | .ok resp =>
    match resp.body with
    | .error e => .error (.threw e)
    | .ok pd =>
      match pd.get "status" with
      | .error e => .error (.threw e)
      | .ok stv => if stv.truthy then .ok stv else .error .noStatus

/-- The poll loop (server.js lines 650-667): while the run status is
neither 'completed' nor 'failed', run one iteration and continue with
the new status.  The fuel bounds the number of iterations; `none` means
the loop was still running when the fuel ran out. -/
def pollLoop (p : Nat → Except JsError JsResponse) (st : Js) (i fuel : Nat) :
    Option PollOutcome :=
  if jsStrEq st "completed" || jsStrEq st "failed" then some (.done st)
  else
    match fuel with
    | 0 => none
    | fuel' + 1 =>
      match pollOnce (p i) with
      | .error out => some out
      | .ok stv => pollLoop p stv (i + 1) fuel' 

/-- `messagesData.data.find((msg) => msg.role === 'assistant')`: first
element whose role is 'assistant'; accessing role on a null or
undefined element throws. -/
def findAssistant : List Js → Except JsError (Option Js)
  | [] => .ok none
  | m :: rest =>
    match m.get "role" with
    | .error e => .error e
    | .ok r => if jsStrEq r "assistant" then .ok (some m) else findAssistant rest

/-- The optional-chain expression `content[0]?.text?.value` applied to
an already-truthy content value. -/
def primaryText (content : Js) : Js :=
  optChainField (optChainField content.idx0 "text") "value"

/-- Step 5 of the client (server.js lines 676-704): fetch the thread's
messages and extract the first assistant message's text payload, with
the error strings of the source for each failure shape. -/
def fetchMessages (g : Except JsError JsResponse) : Except JsError Js :=
  match g with
  | .error e => .error e
  | .ok resp =>
    match resp.body with
    | .error e => .error e
    | .ok md =>
      if resp.ok = false then
        .ok (.str ("Failed to fetch assistant response. Status: " ++
          toString resp.status ++ ", Details: " ++ jsStringifyTop md))
      else if md.truthy = false then
        .ok (.str ("No messages found or the response structure is unexpected. " ++
          jsStringifyTop md))
      else
        match optChainField md "data" with
        | .arr [] =>
          .ok (.str ("No messages found or the response structure is unexpected. " ++
            jsStringifyTop md))
        | .arr (m0 :: ms) =>
          match findAssistant (m0 :: ms) with
          | .error e => .error e
          | .ok none => .ok (.str "No response from assistant.")
          | .ok (some am) =>
            let content := optChainField am "content"
            if content.truthy then
              let v := primaryText content
              if v.truthy then .ok v
              else .ok (.str "No response from assistant.")
            else .ok (.str "No response from assistant.")
        | _ =>
          .ok (.str ("No messages found or the response structure is unexpected. " ++
            jsStringifyTop md))

/-- The body of the try block of createThreadWithMessage (server.js
lines 579-704): the five strictly sequential steps, with every early
return of the source reproduced verbatim.  `none` means the poll loop
outlived the fuel; `.error` means a JavaScript exception propagated to
the outer catch. -/
def clientBody (t : NetTrace) (fuel : Nat) : Option (Except JsError Js) :=
  match t.createThread with
  | .error e => some (.error e)
  | .ok resp1 =>
    match resp1.body with
    | .error e => some (.error e)
    | .ok threadData =>
      if resp1.ok = false then
        some (.ok (.str ("Failed to create thread. Details: " ++ jsToString threadData)))
      else
        match threadData.get "id" with
        | .error e => some (.error e)
        | .ok _threadId =>
          match t.addMessage with
          | .error e => some (.error e)
          | .ok resp2 =>
            match resp2.body with
            | .error e => some (.error e)
            | .ok messageData =>
              if resp2.ok = false then
                some (.ok (.str ("Failed to add message to thread. Details: " ++
                  jsStringifyTop messageData)))
              else
                match t.startRun with
                | .error e => some (.error e)
                | .ok resp3 =>
                  match resp3.body with
                  | .error e => some (.error e)
                  | .ok runData =>
                    if resp3.ok = false then
                      some (.ok (.str ("Failed to run assistant on thread. Details: " ++
                        jsStringifyTop runData)))
                    else
                      match runData.get "id" with
                      | .error e => some (.error e)
                      | .ok _runId =>
                        match runData.get "status" with
                        | .error e => some (.error e)
                        | .ok st0 =>
                          match pollLoop t.poll st0 0 fuel with
                          | none => none
                          | some (.threw e) => some (.error e)
                          | some .noStatus =>
                            some (.ok (.str "Failed to retrieve run status."))
                          | some (.done st) =>
                            if jsStrEq st "failed" then
                              some (.ok (.str "Assistant failed to process the thread."))
                            else some (fetchMessages t.getMessages)

/-- createThreadWithMessage (server.js lines 573-709): the try body with
the outer catch converting any thrown error into the returned error
string. -/
def createThreadWithMessage (t : NetTrace) (fuel : Nat) : Option Js :=
  match clientBody t fuel with
  | none => none
  | some (.ok v) => some v
  | some (.error e) =>
    some (.str ("An error occurred while processing your request: " ++ e.message))

/-- A poll iteration whose response parses and carries a truthy status
that is neither 'completed' nor 'failed' (the loop keeps going). -/
def NonTerminalPoll (p : Nat → Except JsError JsResponse) (j : Nat) : Prop :=
  ∃ stv, pollOnce (p j) = .ok stv ∧
    stv ≠ Js.str "completed" ∧ stv ≠ Js.str "failed"

/-- A well-formed successful response with the given JSON body. -/
def okResp (b : Js) : Except JsError JsResponse := .ok ⟨true, 200, .ok b⟩

/-- A trace whose run starts queued and reports in_progress forever. -/
def inProgressTrace : NetTrace :=
  ⟨okResp (.obj [("id", .str "t1")]),
   okResp (.obj []),
   okResp (.obj [("id", .str "r1"), ("status", .str "queued")]),
   fun _ => okResp (.obj [("status", .str "in_progress")]),
   okResp .null⟩

/-- The call never returns, for any number of poll iterations. -/
def neverReturns (t : NetTrace) : Prop :=
  ∀ fuel, createThreadWithMessage t fuel = none

/-- All setup steps of the client succeeded, the poll loop observed
the terminal status 'completed', and the message listing parsed with
the given response and truthy body. -/
def StepsCompleted (t : NetTrace) (fuel : Nat) (r5 : JsResponse)
    (md : Js) : Prop :=
  ∃ (r1 r2 r3 : JsResponse) (b1 b2 b3 i1 i3 st0 : Js),
    t.createThread = .ok r1 ∧ r1.body = .ok b1 ∧ r1.ok = true ∧
    b1.get "id" = .ok i1 ∧
    t.addMessage = .ok r2 ∧ r2.body = .ok b2 ∧ r2.ok = true ∧
    t.startRun = .ok r3 ∧ r3.body = .ok b3 ∧ r3.ok = true ∧
    b3.get "id" = .ok i3 ∧ b3.get "status" = .ok st0 ∧
    pollLoop t.poll st0 0 fuel = some (.done (Js.str "completed")) ∧
    t.getMessages = .ok r5 ∧ r5.body = .ok md ∧ r5.ok = true ∧
    md.truthy = true

/- ------------------------------------------------------------------
   Basic lemmas about the scanning helpers.
   ------------------------------------------------------------------ -/

theorem lpre_iff {p l : List Char} : lpre p l = true ↔ ∃ t, l = p ++ t := by
  induction p generalizing l with
  | nil => simp [lpre]
  | cons a as ih =>
    cases l with
    | nil => simp [lpre]
    | cons b bs =>
      simp only [lpre, Bool.and_eq_true, decide_eq_true_eq, ih, List.cons_append,
        List.cons.injEq]
      constructor
      · rintro ⟨rfl, t, rfl⟩
        exact ⟨t, rfl, rfl⟩
      · rintro ⟨t, rfl, rfl⟩
        exact ⟨rfl, t, rfl⟩

theorem lpre_append (p t : List Char) : lpre p (p ++ t) = true :=
  lpre_iff.mpr ⟨t, rfl⟩

theorem subOcc_of_decomp (p u v : List Char) : subOcc p (u ++ p ++ v) = true := by
  induction u with
  | nil =>
    cases p with
    | nil => cases v <;> simp [subOcc, lpre]
    | cons a as =>
      simp only [List.nil_append, List.cons_append, subOcc, Bool.or_eq_true]
      left
      simpa using lpre_append (a :: as) v
  | cons c u' ih =>
    simp only [List.cons_append, subOcc, Bool.or_eq_true]
    right
    simpa [List.append_assoc] using ih

theorem decomp_of_subOcc {p x : List Char} (h : subOcc p x = true) :
    ∃ u v, x = u ++ p ++ v := by
  induction x with
  | nil =>
    simp only [subOcc] at h
    obtain ⟨t, ht⟩ := lpre_iff.mp h
    exact ⟨[], t, by simp [ht]⟩
  | cons c rest ih =>
    simp only [subOcc, Bool.or_eq_true] at h
    rcases h with h | h
    · obtain ⟨t, ht⟩ := lpre_iff.mp h
      exact ⟨[], t, by simp [ht]⟩
    · obtain ⟨u, v, rfl⟩ := ih h
      exact ⟨c :: u, v, rfl⟩

theorem takeWhile_mem {p : Char → Bool} {l : List Char} {a : Char}
    (h : a ∈ l.takeWhile p) : p a = true := by
  induction l with
  | nil => simp [List.takeWhile] at h
  | cons c rest ih =>
    rw [List.takeWhile_cons] at h
    by_cases hc : p c = true
    · rw [if_pos hc] at h
      rcases List.mem_cons.mp h with rfl | h
      · exact hc
      · exact ih h
    · rw [if_neg hc] at h
      simp at h

theorem takeWhile_eq_of {p : Char → Bool} {l : List Char} {x : Char} (y : List Char)
    (hl : ∀ a ∈ l, p a = true) (hx : p x = false) :
    (l ++ x :: y).takeWhile p = l ∧ (l ++ x :: y).dropWhile p = x :: y := by
  induction l with
  | nil => simp [List.takeWhile_cons, List.dropWhile_cons, hx]
  | cons c rest ih =>
    have hc : p c = true := hl c (by simp)
    have := ih (fun a ha => hl a (by simp [ha]))
    simp [List.takeWhile_cons, List.dropWhile_cons, hc, this.1, this.2]

theorem dropWhile_head_false {p : Char → Bool} {l : List Char} {c : Char}
    {r : List Char} (h : l.dropWhile p = c :: r) : p c = false := by
  induction l with
  | nil => simp [List.dropWhile] at h
  | cons a rest ih =>
    rw [List.dropWhile_cons] at h
    by_cases ha : p a = true
    · rw [if_pos ha] at h
      exact ih h
    · rw [if_neg ha] at h
      cases h
      simpa using ha

theorem idxOf_append_left {d : List Char} {l ext : List (List Char)}
    (h : d ∈ l) : idxOf d (l ++ ext) = idxOf d l := by
  induction l with
  | nil => simp at h
  | cons e rest ih =>
    by_cases he : e = d
    · simp [idxOf, he]
    · rcases List.mem_cons.mp h with rfl | h
      · exact absurd rfl he
      · simp [idxOf, he, ih h]

/- ------------------------------------------------------------------
   Lemmas about marker parsing.
   ------------------------------------------------------------------ -/

theorem srcTail_eq : srcTail = '†' :: "source】".toList := rfl

theorem tryMarker_cons_ne {c : Char} {r : List Char} (h : c ≠ '【') :
    tryMarker (c :: r) = none := by
  simp [tryMarker, h]

theorem tryMarker_eq_some {cs code rest : List Char}
    (h : tryMarker cs = some (code, rest)) :
    cs = markerText code ++ rest ∧ code ≠ [] ∧ ∀ a ∈ code, a ≠ '†' := by
  match cs with
  | [] => simp [tryMarker] at h
  | c :: r =>
    by_cases hc : c = '【'
    case neg => rw [tryMarker_cons_ne hc] at h; exact absurd h (by simp)
    subst hc
    have h1 : (if r.takeWhile notDagger = [] then none
        else if lpre srcTail (r.dropWhile notDagger) then
          some (r.takeWhile notDagger, (r.dropWhile notDagger).drop 8)
        else none) = some (code, rest) := h
    by_cases h0 : r.takeWhile notDagger = []
    case pos => rw [if_pos h0] at h1; exact absurd h1 (by simp)
    rw [if_neg h0] at h1
    by_cases hp : lpre srcTail (r.dropWhile notDagger) = true
    case neg => rw [if_neg hp] at h1; exact absurd h1 (by simp)
    rw [if_pos hp] at h1
    simp only [Option.some.injEq, Prod.mk.injEq] at h1
    obtain ⟨hcode, hrest⟩ := h1
    obtain ⟨t, ht⟩ := lpre_iff.mp hp
    have hsplit : r.takeWhile notDagger ++ r.dropWhile notDagger = r :=
      List.takeWhile_append_dropWhile _ _
    have hlen : srcTail.length = 8 := rfl
    have hdrop : (r.dropWhile notDagger).drop 8 = t := by
      rw [ht, ← hlen, List.drop_left]
    refine ⟨?_, ?_, ?_⟩
    · rw [markerText]
      rw [← hsplit, hcode, ht, ← hrest, hdrop]
      simp
    · rw [← hcode]; exact h0
    · intro a ha
      rw [← hcode] at ha
      simpa [notDagger] using takeWhile_mem ha

theorem tryMarker_mk {code : List Char} (rest : List Char) (h0 : code ≠ [])
    (ht : ∀ a ∈ code, a ≠ '†') :
    tryMarker (markerText code ++ rest) = some (code, rest) := by
  have hsh : markerText code ++ rest =
      '【' :: (code ++ '†' :: ("source】".toList ++ rest)) := by
    rw [markerText, srcTail_eq]
    simp
  rw [hsh]
  have hsplit := takeWhile_eq_of (p := notDagger) (x := '†')
    ("source】".toList ++ rest) (fun a ha => by simpa [notDagger] using ht a ha)
    (by simp [notDagger])
  have h1 : tryMarker ('【' :: (code ++ '†' :: ("source】".toList ++ rest))) =
      (if (code ++ '†' :: ("source】".toList ++ rest)).takeWhile notDagger = []
       then none
       else if lpre srcTail
          ((code ++ '†' :: ("source】".toList ++ rest)).dropWhile notDagger) then
        some ((code ++ '†' :: ("source】".toList ++ rest)).takeWhile notDagger,
          ((code ++ '†' :: ("source】".toList ++ rest)).dropWhile notDagger).drop 8)
       else none) := rfl
  rw [h1, hsplit.1, hsplit.2, if_neg h0]
  have h2 : '†' :: ("source】".toList ++ rest) = srcTail ++ rest := by
    rw [srcTail_eq]; simp
  rw [h2, if_pos (lpre_append _ _)]
  have h3 : srcTail.length = 8 := rfl
  rw [← h3, List.drop_left]

theorem markerText_length (code : List Char) :
    (markerText code).length = code.length + 9 := by
  simp [markerText, srcTail_eq]

theorem tryMarker_len {cs code rest : List Char}
    (h : tryMarker cs = some (code, rest)) : rest.length < cs.length := by
  obtain ⟨hcs, -, -⟩ := tryMarker_eq_some h
  rw [hcs, List.length_append, markerText_length]
  omega

theorem parseRunF_none {cs : List Char} (h : tryMarker cs = none) :
    ∀ f, parseRunF f cs = none := by
  intro f
  cases f with
  | zero => rfl
  | succ f => simp [parseRunF, h]

theorem parseRunF_len : ∀ {f : Nat} {cs : List Char}
    {codes : List (List Char)} {rest : List Char},
    parseRunF f cs = some (codes, rest) → rest.length < cs.length := by
  intro f
  induction f with
  | zero => intro cs codes rest h; simp [parseRunF] at h
  | succ f ih =>
    intro cs codes rest h
    match hm : tryMarker cs with
    | none => rw [parseRunF_none hm] at h; exact absurd h (by simp)
    | some (code, rest0) =>
      have h1 : (match tryMarker cs with
        | none => none
        | some (code, rest) =>
          match parseRunF f rest with
          | none => some ([code], rest)
          | some (codes, rest') => some (code :: codes, rest')) =
            some (codes, rest) := h
      rw [hm] at h1
      have h2 : (match parseRunF f rest0 with
        | none => some ([code], rest0)
        | some (codes, rest') => some (code :: codes, rest')) =
          some (codes, rest) := h1
      have h0 := tryMarker_len hm
      match hp : parseRunF f rest0 with
      | none =>
        rw [hp] at h2
        simp only [Option.some.injEq, Prod.mk.injEq] at h2
        obtain ⟨-, rfl⟩ := h2
        exact h0
      | some (codes1, rest1) =>
        rw [hp] at h2
        simp only [Option.some.injEq, Prod.mk.injEq] at h2
        obtain ⟨-, rfl⟩ := h2
        have := ih hp
        omega


theorem parseRun_none {cs : List Char} (h : tryMarker cs = none) :
    parseRun cs = none :=
  parseRunF_none h _

theorem parseRun_len {cs : List Char} {codes : List (List Char)}
    {rest : List Char} (h : parseRun cs = some (codes, rest)) :
    rest.length < cs.length :=
  parseRunF_len h

theorem parseRunF_succ_some {cs code rest : List Char}
    (hm : tryMarker cs = some (code, rest)) (g : Nat) :
    parseRunF (g + 1) cs =
      (match parseRunF g rest with
       | none => some ([code], rest)
       | some (codes, rest') => some (code :: codes, rest')) := by
  have h1 : parseRunF (g + 1) cs =
      (match tryMarker cs with
       | none => none
       | some (code, rest) =>
         match parseRunF g rest with
         | none => some ([code], rest)
         | some (codes, rest') => some (code :: codes, rest')) := rfl
  rw [h1, hm]

theorem parseRunF_irrel : ∀ (n : Nat) (cs : List Char), cs.length ≤ n →
    ∀ f₁ f₂, cs.length ≤ f₁ → cs.length ≤ f₂ →
    parseRunF f₁ cs = parseRunF f₂ cs := by
  intro n
  induction n with
  | zero =>
    intro cs hcs f₁ f₂ _ _
    have h : cs = [] := List.length_eq_zero.mp (Nat.le_zero.mp hcs)
    subst h
    rw [parseRunF_none (show tryMarker [] = none from rfl),
      parseRunF_none (show tryMarker [] = none from rfl)]
  | succ n ih =>
    intro cs hcs f₁ f₂ h₁ h₂
    match hm : tryMarker cs with
    | none => rw [parseRunF_none hm, parseRunF_none hm]
    | some (code, rest) =>
      have hl := tryMarker_len hm
      obtain ⟨g₁, rfl⟩ : ∃ g, f₁ = g + 1 := ⟨f₁ - 1, by omega⟩
      obtain ⟨g₂, rfl⟩ : ∃ g, f₂ = g + 1 := ⟨f₂ - 1, by omega⟩
      rw [parseRunF_succ_some hm g₁, parseRunF_succ_some hm g₂,
        ih rest (by omega) g₁ g₂ (by omega) (by omega)]

theorem parseRun_eq_parseRunF {cs : List Char} {f : Nat} (h : cs.length ≤ f) :
    parseRun cs = parseRunF f cs :=
  parseRunF_irrel cs.length cs le_rfl cs.length f le_rfl h

/-- parseRun on a whole run of markers followed by non-marker text
returns exactly the run's codes. -/
theorem parseRun_run : ∀ (codes : List (List Char)) (post : List Char),
    codes ≠ [] → (∀ c ∈ codes, c ≠ [] ∧ ∀ a ∈ c, a ≠ '†') →
    tryMarker post = none →
    parseRun (runText codes ++ post) = some (codes, post) := by
  intro codes
  induction codes with
  | nil => intro post h; exact absurd rfl h
  | cons c codes' ih =>
    intro post _ hv hpost
    have hc := hv c (by simp)
    have hsh : runText (c :: codes') ++ post =
        markerText c ++ (runText codes' ++ post) := by
      simp [runText, List.append_assoc]
    have hm : tryMarker (runText (c :: codes') ++ post) =
        some (c, runText codes' ++ post) := by
      rw [hsh]
      exact tryMarker_mk _ hc.1 hc.2
    have hlen : (runText (c :: codes') ++ post).length =
        (runText codes' ++ post).length + c.length + 9 := by
      rw [hsh, List.length_append, markerText_length]
      omega
    rw [parseRun]
    have hfuel : (runText codes' ++ post).length ≤
        (runText (c :: codes') ++ post).length - 1 := by omega
    obtain ⟨g, hg⟩ : ∃ g, (runText (c :: codes') ++ post).length = g + 1 :=
      ⟨(runText (c :: codes') ++ post).length - 1, by omega⟩
    rw [hg, parseRunF_succ_some hm g]
    cases codes' with
    | nil =>
      have : runText ([] : List (List Char)) ++ post = post := by
        simp [runText]
      rw [this] at hm ⊢
      rw [parseRunF_none hpost g]
    | cons c2 codes'' =>
      have hrec := ih post (by simp) (fun d hd => hv d (by simp [hd])) hpost
      rw [parseRun_eq_parseRunF (f := g) (by omega)] at hrec
      rw [hrec]

theorem unifyAuxF_nil (f : Nat) (coll : List (List Char)) :
    unifyAuxF f [] coll = ([], coll) := by
  cases f <;> rfl

theorem unifyAuxF_succ_some {c : Char} {rest rest' : List Char}
    {codes : List (List Char)} (coll : List (List Char))
    (hm : parseRun (c :: rest) = some (codes, rest')) (f : Nat) :
    unifyAuxF (f + 1) (c :: rest) coll =
      (supBlock (List.insertionSort (· ≤ ·) (collectRun codes coll []).2) ++
        (unifyAuxF f rest' (collectRun codes coll []).1).1,
       (unifyAuxF f rest' (collectRun codes coll []).1).2) := by
  have h1 : unifyAuxF (f + 1) (c :: rest) coll =
      (match parseRun (c :: rest) with
       | some (codes, rest') =>
         let p := collectRun codes coll []
         let r := unifyAuxF f rest' p.1
         (supBlock (List.insertionSort (· ≤ ·) p.2) ++ r.1, r.2)
       | none =>
         let r := unifyAuxF f rest coll
         (c :: r.1, r.2)) := rfl
  rw [h1, hm]

theorem unifyAuxF_succ_none {c : Char} {rest : List Char}
    (coll : List (List Char)) (hm : parseRun (c :: rest) = none) (f : Nat) :
    unifyAuxF (f + 1) (c :: rest) coll =
      (c :: (unifyAuxF f rest coll).1, (unifyAuxF f rest coll).2) := by
  have h1 : unifyAuxF (f + 1) (c :: rest) coll =
      (match parseRun (c :: rest) with
       | some (codes, rest') =>
         let p := collectRun codes coll []
         let r := unifyAuxF f rest' p.1
         (supBlock (List.insertionSort (· ≤ ·) p.2) ++ r.1, r.2)
       | none =>
         let r := unifyAuxF f rest coll
         (c :: r.1, r.2)) := rfl
  rw [h1, hm]

theorem unifyAuxF_irrel : ∀ (n : Nat) (cs : List Char)
    (coll : List (List Char)) (f₁ f₂ : Nat), cs.length ≤ n →
    cs.length ≤ f₁ → cs.length ≤ f₂ →
    unifyAuxF f₁ cs coll = unifyAuxF f₂ cs coll := by
  intro n
  induction n with
  | zero =>
    intro cs coll f₁ f₂ hn _ _
    have h : cs = [] := List.length_eq_zero.mp (Nat.le_zero.mp hn)
    subst h
    rw [unifyAuxF_nil, unifyAuxF_nil]
  | succ n ih =>
    intro cs coll f₁ f₂ hn h₁ h₂
    cases cs with
    | nil => rw [unifyAuxF_nil, unifyAuxF_nil]
    | cons c rest =>
      have hpos : 1 ≤ (c :: rest).length := by simp
      obtain ⟨g₁, rfl⟩ : ∃ g, f₁ = g + 1 := ⟨f₁ - 1, by simp at h₁; omega⟩
      obtain ⟨g₂, rfl⟩ : ∃ g, f₂ = g + 1 := ⟨f₂ - 1, by simp at h₂; omega⟩
      simp only [List.length_cons] at hn h₁ h₂
      match hm : parseRun (c :: rest) with
      | some (codes, rest') =>
        have hl : rest'.length < rest.length + 1 := by
          have := parseRun_len hm
          simpa using this
        rw [unifyAuxF_succ_some coll hm g₁, unifyAuxF_succ_some coll hm g₂,
          ih rest' _ g₁ g₂ (by omega) (by omega) (by omega)]
      | none =>
        rw [unifyAuxF_succ_none coll hm g₁, unifyAuxF_succ_none coll hm g₂,
          ih rest _ g₁ g₂ (by omega) (by omega) (by omega)]

theorem unify_nil (coll : List (List Char)) :
    unifyConsecutiveReferences [] coll = ([], coll) := rfl

theorem unify_cons_some {c : Char} {rest rest' : List Char}
    {codes : List (List Char)} (coll : List (List Char))
    (hm : parseRun (c :: rest) = some (codes, rest')) :
    unifyConsecutiveReferences (c :: rest) coll =
      (supBlock (List.insertionSort (· ≤ ·) (collectRun codes coll []).2) ++
        (unifyConsecutiveReferences rest' (collectRun codes coll []).1).1,
       (unifyConsecutiveReferences rest' (collectRun codes coll []).1).2) := by
  have hl : rest'.length < (c :: rest).length := parseRun_len hm
  rw [unifyConsecutiveReferences, List.length_cons, unifyAuxF_succ_some coll hm,
    unifyConsecutiveReferences,
    unifyAuxF_irrel rest.length rest' _ rest.length rest'.length
      (by simp at hl; omega) (by simp at hl; omega) le_rfl]

theorem unify_cons_none {c : Char} {rest : List Char}
    (coll : List (List Char)) (hm : parseRun (c :: rest) = none) :
    unifyConsecutiveReferences (c :: rest) coll =
      (c :: (unifyConsecutiveReferences rest coll).1,
       (unifyConsecutiveReferences rest coll).2) := by
  rw [unifyConsecutiveReferences, List.length_cons, unifyAuxF_succ_none coll hm,
    unifyConsecutiveReferences]

theorem collectRun_cons (code : List Char) (rest : List (List Char))
    (coll : List (List Char)) (idxs : List Nat) :
    collectRun (code :: rest) coll idxs =
      collectRun rest
        (if resolveCode code ∈ coll then coll else coll ++ [resolveCode code])
        (if idxOf (resolveCode code)
            (if resolveCode code ∈ coll then coll
             else coll ++ [resolveCode code]) + 1 ∈ idxs then idxs
         else idxs ++ [idxOf (resolveCode code)
            (if resolveCode code ∈ coll then coll
             else coll ++ [resolveCode code]) + 1]) := rfl

theorem collectRun_ext : ∀ (codes : List (List Char))
    (coll : List (List Char)) (idxs : List Nat),
    ∃ ext, (collectRun codes coll idxs).1 = coll ++ ext := by
  intro codes
  induction codes with
  | nil => intro coll idxs; exact ⟨[], by simp [collectRun]⟩
  | cons code rest ih =>
    intro coll idxs
    rw [collectRun_cons]
    by_cases hd : resolveCode code ∈ coll
    · rw [if_pos hd]
      exact ih coll _
    · rw [if_neg hd]
      obtain ⟨ext, hext⟩ := ih (coll ++ [resolveCode code]) _
      exact ⟨[resolveCode code] ++ ext, by rw [hext, List.append_assoc]⟩

theorem collectRun_coll_nodup : ∀ (codes : List (List Char))
    (coll : List (List Char)) (idxs : List Nat),
    coll.Nodup → (collectRun codes coll idxs).1.Nodup := by
  intro codes
  induction codes with
  | nil => intro coll idxs h; exact h
  | cons code rest ih =>
    intro coll idxs h
    rw [collectRun_cons]
    by_cases hd : resolveCode code ∈ coll
    · rw [if_pos hd]
      exact ih coll _ h
    · rw [if_neg hd]
      refine ih _ _ ?_
      simp [List.nodup_append, h, hd]

theorem collectRun_idxs_nodup : ∀ (codes : List (List Char))
    (coll : List (List Char)) (idxs : List Nat),
    idxs.Nodup → (collectRun codes coll idxs).2.Nodup := by
  intro codes
  induction codes with
  | nil => intro coll idxs h; exact h
  | cons code rest ih =>
    intro coll idxs h
    rw [collectRun_cons]
    by_cases hi : idxOf (resolveCode code)
        (if resolveCode code ∈ coll then coll
         else coll ++ [resolveCode code]) + 1 ∈ idxs
    · rw [if_pos hi]
      exact ih _ _ h
    · rw [if_neg hi]
      refine ih _ _ ?_
      simp [List.nodup_append, h, hi]

theorem collectRun_mem_idxs : ∀ (codes : List (List Char))
    (coll : List (List Char)) (idxs : List Nat) (i : Nat),
    i ∈ (collectRun codes coll idxs).2 ↔
      i ∈ idxs ∨ ∃ c ∈ codes,
        i = idxOf (resolveCode c) (collectRun codes coll idxs).1 + 1 := by
  intro codes
  induction codes with
  | nil => intro coll idxs i; simp [collectRun]
  | cons code rest ih =>
    intro coll idxs i
    rw [collectRun_cons]
    set d := resolveCode code with hd_def
    set coll1 := if d ∈ coll then coll else coll ++ [d] with hcoll1
    set i1 := idxOf d coll1 + 1 with hi1
    set idxs1 := if i1 ∈ idxs then idxs else idxs ++ [i1] with hidxs1
    rw [ih coll1 idxs1 i]
    have hdmem : d ∈ coll1 := by
      rw [hcoll1]
      by_cases h : d ∈ coll
      · simp [h]
      · simp [h]
    obtain ⟨ext, hext⟩ := collectRun_ext rest coll1 idxs1
    have hidx_d : idxOf d (collectRun rest coll1 idxs1).1 = idxOf d coll1 := by
      rw [hext]
      exact idxOf_append_left hdmem
    constructor
    · rintro (hi | ⟨c, hc, rfl⟩)
      · rw [hidxs1] at hi
        by_cases h : i1 ∈ idxs
        · rw [if_pos h] at hi
          exact Or.inl hi
        · rw [if_neg h] at hi
          rcases List.mem_append.mp hi with hi | hi
          · exact Or.inl hi
          · have he : i = i1 := by simpa using hi
            subst he
            exact Or.inr ⟨code, by simp, by rw [hidx_d]⟩
      · exact Or.inr ⟨c, by simp [hc], rfl⟩
    · rintro (hi | ⟨c, hc, hceq⟩)
      · left
        rw [hidxs1]
        by_cases h : i1 ∈ idxs
        · rw [if_pos h]; exact hi
        · rw [if_neg h]; exact List.mem_append.mpr (Or.inl hi)
      · rcases List.mem_cons.mp hc with rfl | hc
        · left
          rw [← hd_def] at hceq
          have hii : i = i1 := by rw [hceq, hidx_d]
          subst hii
          rw [hidxs1]
          by_cases h : i1 ∈ idxs
          · rw [if_pos h]; exact h
          · rw [if_neg h]; simp
        · exact Or.inr ⟨c, hc, hceq⟩

theorem unifyAuxF_coll_nodup : ∀ (f : Nat) (cs : List Char)
    (coll : List (List Char)), coll.Nodup → ((unifyAuxF f cs coll).2).Nodup := by
  intro f
  induction f with
  | zero => intro cs coll h; exact h
  | succ f ih =>
    intro cs coll h
    cases cs with
    | nil => rw [unifyAuxF_nil]; exact h
    | cons c rest =>
      match hm : parseRun (c :: rest) with
      | some (codes, rest') =>
        rw [unifyAuxF_succ_some coll hm]
        exact ih _ _ (collectRun_coll_nodup codes coll [] h)
      | none =>
        rw [unifyAuxF_succ_none coll hm]
        exact ih _ _ h

theorem unifyAuxF_ext : ∀ (f : Nat) (cs : List Char)
    (coll : List (List Char)), ∃ ext, (unifyAuxF f cs coll).2 = coll ++ ext := by
  intro f
  induction f with
  | zero => intro cs coll; exact ⟨[], by simp [unifyAuxF]⟩
  | succ f ih =>
    intro cs coll
    cases cs with
    | nil => rw [unifyAuxF_nil]; exact ⟨[], by simp⟩
    | cons c rest =>
      match hm : parseRun (c :: rest) with
      | some (codes, rest') =>
        rw [unifyAuxF_succ_some coll hm]
        obtain ⟨e1, he1⟩ := collectRun_ext codes coll []
        obtain ⟨e2, he2⟩ := ih rest' (collectRun codes coll []).1
        exact ⟨e1 ++ e2, by rw [he2, he1, List.append_assoc]⟩
      | none =>
        rw [unifyAuxF_succ_none coll hm]
        exact ih rest coll

theorem unify_coll_nodup (cs : List Char) (coll : List (List Char))
    (h : coll.Nodup) : ((unifyConsecutiveReferences cs coll).2).Nodup :=
  unifyAuxF_coll_nodup _ _ _ h

theorem unify_ext (cs : List Char) (coll : List (List Char)) :
    ∃ ext, (unifyConsecutiveReferences cs coll).2 = coll ++ ext :=
  unifyAuxF_ext _ _ _

/-- Unfolding of sanitizeAssistantResponse into its pass chain. -/
theorem sanitize_unfold (t : List Char) :
    sanitizeAssistantResponse t =
      (jsTrim (linkReferences
        (unifyConsecutiveReferences (boldHeadings (stripBracketsGo none
          (stripStars (stripHashGo false t)))) []).1),
       (unifyConsecutiveReferences (boldHeadings (stripBracketsGo none
          (stripStars (stripHashGo false t)))) []).2) := rfl

/-- The text component of sanitizeAssistantResponse as its pass chain. -/
theorem sanitize_fst (t : List Char) :
    (sanitizeAssistantResponse t).1 =
      jsTrim (linkReferences
        (unifyConsecutiveReferences (boldHeadings (stripBracketsGo none
          (stripStars (stripHashGo false t)))) []).1) := by
  rw [sanitize_unfold]

/-- The collected references of sanitizeAssistantResponse come from the
unification pass started on the empty state. -/
theorem sanitize_snd (t : List Char) :
    (sanitizeAssistantResponse t).2 =
      (unifyConsecutiveReferences (boldHeadings (stripBracketsGo none
        (stripStars (stripHashGo false t)))) []).2 := by
  rw [sanitize_unfold]

/-- C2: after any single invocation of the annotator on any input, the
collected references contain no citation string twice; moreover the
collected list only ever grows by appending during unification, and the
1-based index of an already-collected citation string is unchanged by
any further unification — so every later occurrence of a code resolving
to an already-collected citation is assigned the index of the first
occurrence, whether in the same run or a later, non-adjacent run. -/
theorem c2_collected_nodup_first_seen :
    (∀ t : List Char, ((sanitizeAssistantResponse t).2).Nodup) ∧
    (∀ (cs : List Char) (coll : List (List Char)),
      ∃ ext, (unifyConsecutiveReferences cs coll).2 = coll ++ ext) ∧
    (∀ (cs : List Char) (coll : List (List Char)) (d : List Char), d ∈ coll →
      idxOf d ((unifyConsecutiveReferences cs coll).2) = idxOf d coll) := by
  refine ⟨?_, ?_, ?_⟩
  · intro t
    rw [sanitize_snd]
    exact unify_coll_nodup _ _ List.nodup_nil
  · intro cs coll
    exact unify_ext cs coll
  · intro cs coll d hd
    obtain ⟨ext, hext⟩ := unify_ext cs coll
    rw [hext]
    exact idxOf_append_left hd

/-- Witness for c2_collected_nodup_first_seen: the index-stability
conjunct instantiated at a concrete collected state and text. -/
theorem c2_collected_nodup_first_seen_witness :
    "Page 18, Section 2".toList ∈ ["Page 18, Section 2".toList] ∧
    idxOf "Page 18, Section 2".toList
        ((unifyConsecutiveReferences "x【4:8†source】".toList
          ["Page 18, Section 2".toList]).2) =
      idxOf "Page 18, Section 2".toList ["Page 18, Section 2".toList] :=
  ⟨by decide, c2_collected_nodup_first_seen.2.2 _ _ _ (by decide)⟩

/-- C4: a reference code absent from referenceDetailsMap resolves to the
literal fallback "FDA Guidance"; any two unknown codes (even distinct
ones) resolve to the same citation string, because citation equality is
by resolved string; and concretely a text carrying the unknown codes
9:9 and 7:7 in two separate runs yields the footnote index 1 for both,
with "FDA Guidance" occupying a single collected slot. -/
theorem c4_unknown_code_fallback :
    (∀ code : List Char, referenceDetailsMap code = none →
      resolveCode code = "FDA Guidance".toList) ∧
    (∀ c₁ c₂ : List Char, referenceDetailsMap c₁ = none →
      referenceDetailsMap c₂ = none → resolveCode c₁ = resolveCode c₂) ∧
    sanitizeAssistantResponse "【9:9†source】x【7:7†source】".toList =
      ("<sup>[1]</sup>x<sup>[1]</sup>".toList, ["FDA Guidance".toList]) := by
  refine ⟨?_, ?_, by decide⟩
  · intro code h
    simp [resolveCode, h]
  · intro c₁ c₂ h₁ h₂
    simp [resolveCode, h₁, h₂]

/-- Witness for c4_unknown_code_fallback: the fallback conjunct applied
to the unknown code 9:9. -/
theorem c4_unknown_code_fallback_witness :
    referenceDetailsMap "9:9".toList = none ∧
    resolveCode "9:9".toList = "FDA Guidance".toList :=
  ⟨by decide, c4_unknown_code_fallback.1 _ (by decide)⟩

/-- A maximal run of consecutive markers, preceded by marker-free text
and followed by text that does not begin with a marker, is replaced by
a single superscript block computed by collectRun, and scanning
resumes after the run with the updated collected state. -/
theorem unify_run_decomp : ∀ (pre : List Char) (codes : List (List Char))
    (post : List Char) (coll : List (List Char)),
    '【' ∉ pre → codes ≠ [] → (∀ c ∈ codes, c ≠ [] ∧ ∀ a ∈ c, a ≠ '†') →
    tryMarker post = none →
    unifyConsecutiveReferences (pre ++ runText codes ++ post) coll =
      (pre ++ supBlock (List.insertionSort (· ≤ ·) (collectRun codes coll []).2) ++
        (unifyConsecutiveReferences post (collectRun codes coll []).1).1,
       (unifyConsecutiveReferences post (collectRun codes coll []).1).2) := by
  intro pre
  induction pre with
  | nil =>
    intro codes post coll _ hne hv hpost
    cases codes with
    | nil => exact absurd rfl hne
    | cons c0 codes' =>
      have hrun := parseRun_run (c0 :: codes') post (by simp) hv hpost
      have hshape : runText (c0 :: codes') ++ post =
          '【' :: ((c0 ++ srcTail) ++ (runText codes' ++ post)) := by
        simp [runText, markerText, List.append_assoc]
      rw [hshape] at hrun
      rw [List.nil_append, hshape, unify_cons_some coll hrun, List.nil_append]
  | cons p pre' ih =>
    intro codes post coll hpre hne hv hpost
    have hp : p ≠ '【' := fun h => hpre (by simp [h])
    have hpr : parseRun (p :: (pre' ++ runText codes ++ post)) = none :=
      parseRun_none (tryMarker_cons_ne hp)
    have hpre' : '【' ∉ pre' := fun h => hpre (List.mem_cons_of_mem _ h)
    rw [List.cons_append, List.cons_append, unify_cons_none coll hpr,
      ih codes post coll hpre' hne hv hpost]
    simp

/-- The index list produced for one run, after sorting, is strictly
increasing (hence duplicate-free), and contains exactly the 1-based
positions in the updated collected list of the resolved citations of
the run's codes. -/
theorem runIndices_sorted_mem (codes : List (List Char))
    (coll : List (List Char)) :
    List.Sorted (· < ·)
      (List.insertionSort (· ≤ ·) (collectRun codes coll []).2) ∧
    ∀ i, i ∈ List.insertionSort (· ≤ ·) (collectRun codes coll []).2 ↔
      ∃ c ∈ codes, i = idxOf (resolveCode c) (collectRun codes coll []).1 + 1 := by
  have hnd : (collectRun codes coll []).2.Nodup :=
    collectRun_idxs_nodup codes coll [] (by simp)
  have hperm := List.perm_insertionSort (· ≤ ·) (collectRun codes coll []).2
  constructor
  · exact (List.sorted_insertionSort _ _).lt_of_le (hperm.nodup_iff.mpr hnd)
  · intro i
    rw [hperm.mem_iff, collectRun_mem_idxs]
    simp

/-- C1: the annotator replaces each maximal run of consecutive
reference markers by a single superscript block: for any marker-free
prefix, any non-empty run of well-formed marker codes and any suffix
not starting with a marker, unification emits the prefix unchanged, one
supBlock whose indices are exactly the deduplicated (strictly sorted)
1-based collected positions of the run's resolved citations, and
continues with the suffix; in particular the input containing
【4:8†source】【4:14†source】 collapses that run to <sup>[1,2]</sup> with
CollectedReferences ["Page 12, Section 4.8", "Page 18, Section 2"]. -/
theorem c1_run_replacement :
    (∀ (pre : List Char) (codes : List (List Char)) (post : List Char)
      (coll : List (List Char)),
      '【' ∉ pre → codes ≠ [] → (∀ c ∈ codes, c ≠ [] ∧ ∀ a ∈ c, a ≠ '†') →
      tryMarker post = none →
      unifyConsecutiveReferences (pre ++ runText codes ++ post) coll =
        (pre ++ supBlock (List.insertionSort (· ≤ ·)
            (collectRun codes coll []).2) ++
          (unifyConsecutiveReferences post (collectRun codes coll []).1).1,
         (unifyConsecutiveReferences post (collectRun codes coll []).1).2)) ∧
    (∀ (codes : List (List Char)) (coll : List (List Char)),
      List.Sorted (· < ·)
        (List.insertionSort (· ≤ ·) (collectRun codes coll []).2) ∧
      ∀ i, i ∈ List.insertionSort (· ≤ ·) (collectRun codes coll []).2 ↔
        ∃ c ∈ codes, i = idxOf (resolveCode c) (collectRun codes coll []).1 + 1) ∧
    sanitizeAssistantResponse "A 【4:8†source】【4:14†source】 B".toList =
      ("A <sup>[1,2]</sup> B".toList,
       ["Page 12, Section 4.8".toList, "Page 18, Section 2".toList]) :=
  ⟨unify_run_decomp, runIndices_sorted_mem, by decide⟩

/-- Witness for c1_run_replacement: the decomposition conjunct applied
to a concrete prefix, run and suffix. -/
theorem c1_run_replacement_witness :
    '【' ∉ "ab ".toList ∧
    unifyConsecutiveReferences
        ("ab ".toList ++ runText ["4:8".toList] ++ " cd".toList) [] =
      ("ab ".toList ++ supBlock (List.insertionSort (· ≤ ·)
          (collectRun ["4:8".toList] [] []).2) ++
        (unifyConsecutiveReferences " cd".toList
          (collectRun ["4:8".toList] [] []).1).1,
       (unifyConsecutiveReferences " cd".toList
          (collectRun ["4:8".toList] [] []).1).2) :=
  ⟨by decide, c1_run_replacement.1 "ab ".toList ["4:8".toList] " cd".toList []
    (by decide) (by decide) (by decide) (by decide)⟩

theorem subOcc_cons_false {p : List Char} {c : Char} {rest : List Char}
    (h : subOcc p (c :: rest) = false) :
    lpre p (c :: rest) = false ∧ subOcc p rest = false := by
  simpa [subOcc] using h

theorem lowerL_cons (c : Char) (rest : List Char) :
    lowerL (c :: rest) = lowerChar c :: lowerL rest := rfl

theorem stripHashGo_id : ∀ cs : List Char, '#' ∉ cs →
    stripHashGo false cs = cs := by
  intro cs
  induction cs with
  | nil => intro _; rfl
  | cons c rest ih =>
    intro h
    have hc : ¬(c = '#') := fun he => h (by simp [he])
    have e : stripHashGo false (c :: rest) =
        if c = '#' then stripHashGo true rest
        else if (false && isJsWs c) = true then stripHashGo false rest
        else c :: stripHashGo false rest := rfl
    rw [e, if_neg hc, if_neg (by simp)]
    rw [ih (fun hm => h (List.mem_cons_of_mem _ hm))]

theorem stripHashGo_subset : ∀ (cs : List Char) (b : Bool) (x : Char),
    x ∈ stripHashGo b cs → x ∈ cs := by
  intro cs
  induction cs with
  | nil => intro b x hx; simpa [stripHashGo] using hx
  | cons c rest ih =>
    intro b x hx
    have e : stripHashGo b (c :: rest) =
        if c = '#' then stripHashGo true rest
        else if (b && isJsWs c) = true then stripHashGo false rest
        else c :: stripHashGo false rest := rfl
    rw [e] at hx
    by_cases h1 : c = '#'
    · rw [if_pos h1] at hx
      exact List.mem_cons_of_mem _ (ih _ _ hx)
    · rw [if_neg h1] at hx
      by_cases h2 : (b && isJsWs c) = true
      · rw [if_pos h2] at hx
        exact List.mem_cons_of_mem _ (ih _ _ hx)
      · rw [if_neg h2] at hx
        rcases List.mem_cons.mp hx with rfl | hx
        · simp
        · exact List.mem_cons_of_mem _ (ih _ _ hx)

theorem stripStars_id : ∀ (n : Nat) (cs : List Char), cs.length ≤ n →
    subOcc "**".toList cs = false → stripStars cs = cs := by
  intro n
  induction n with
  | zero =>
    intro cs hn _
    have h : cs = [] := List.length_eq_zero.mp (Nat.le_zero.mp hn)
    subst h; rfl
  | succ n ih =>
    intro cs hn hs
    match cs with
    | [] => rfl
    | [c] => rfl
    | c :: d :: rest =>
      have e : stripStars (c :: d :: rest) =
          if c = '*' ∧ d = '*' then stripStars rest
          else c :: stripStars (d :: rest) := rfl
      have hcond : ¬(c = '*' ∧ d = '*') := by
        rintro ⟨rfl, rfl⟩
        have : lpre "**".toList ('*' :: '*' :: rest) = true := by
          simp [lpre]
        rw [(subOcc_cons_false hs).1] at this
        exact absurd this (by simp)
      rw [e, if_neg hcond]
      have htail : subOcc "**".toList (d :: rest) = false :=
        (subOcc_cons_false hs).2
      rw [ih (d :: rest) (by simp at hn ⊢; omega) htail]

theorem stripStars_subset : ∀ (n : Nat) (cs : List Char), cs.length ≤ n →
    ∀ x ∈ stripStars cs, x ∈ cs := by
  intro n
  induction n with
  | zero =>
    intro cs hn x hx
    have h : cs = [] := List.length_eq_zero.mp (Nat.le_zero.mp hn)
    subst h; simpa [stripStars] using hx
  | succ n ih =>
    intro cs hn x hx
    match cs with
    | [] => simpa [stripStars] using hx
    | [c] => simpa [stripStars] using hx
    | c :: d :: rest =>
      have e : stripStars (c :: d :: rest) =
          if c = '*' ∧ d = '*' then stripStars rest
          else c :: stripStars (d :: rest) := rfl
      rw [e] at hx
      by_cases hcond : c = '*' ∧ d = '*'
      · rw [if_pos hcond] at hx
        have := ih rest (by simp at hn ⊢; omega) x hx
        simp [this]
      · rw [if_neg hcond] at hx
        rcases List.mem_cons.mp hx with rfl | hx
        · simp
        · have := ih (d :: rest) (by simp at hn ⊢; omega) x hx
          rcases List.mem_cons.mp this with rfl | h
          · simp
          · simp [h]

theorem stripBracketsGo_subset : ∀ (cs : List Char)
    (st : Option (List Char)) (x : Char), x ∈ stripBracketsGo st cs →
    x ∈ cs ∨ ∃ acc, st = some acc ∧ (x ∈ acc ∨ x = '[') := by
  intro cs
  induction cs with
  | nil =>
    intro st x hx
    match st with
    | none => simpa [stripBracketsGo] using hx
    | some acc =>
      have e : stripBracketsGo (some acc) [] = '[' :: acc.reverse := rfl
      rw [e] at hx
      rcases List.mem_cons.mp hx with rfl | hx
      · exact Or.inr ⟨acc, rfl, Or.inr rfl⟩
      · exact Or.inr ⟨acc, rfl, Or.inl (by simpa using hx)⟩
  | cons c rest ih =>
    intro st x hx
    match st with
    | none =>
      have e : stripBracketsGo none (c :: rest) =
          if c = '[' then stripBracketsGo (some []) rest
          else c :: stripBracketsGo none rest := rfl
      rw [e] at hx
      by_cases hc : c = '['
      · rw [if_pos hc] at hx
        rcases ih (some []) x hx with h | ⟨acc, hacc, hmem⟩
        · exact Or.inl (List.mem_cons_of_mem _ h)
        · cases hacc
          rcases hmem with hmem | rfl
          · simp at hmem
          · exact Or.inl (by simp [hc])
      · rw [if_neg hc] at hx
        rcases List.mem_cons.mp hx with rfl | hx
        · exact Or.inl (by simp)
        · rcases ih none x hx with h | ⟨acc, hacc, -⟩
          · exact Or.inl (List.mem_cons_of_mem _ h)
          · exact absurd hacc (by simp)
    | some acc =>
      have e : stripBracketsGo (some acc) (c :: rest) =
          if c = ']' then stripBracketsGo none rest
          else stripBracketsGo (some (c :: acc)) rest := rfl
      rw [e] at hx
      by_cases hc : c = ']'
      · rw [if_pos hc] at hx
        rcases ih none x hx with h | ⟨acc', hacc, -⟩
        · exact Or.inl (List.mem_cons_of_mem _ h)
        · exact absurd hacc (by simp)
      · rw [if_neg hc] at hx
        rcases ih (some (c :: acc)) x hx with h | ⟨acc', hacc, hmem⟩
        · exact Or.inl (List.mem_cons_of_mem _ h)
        · have hacc' : acc' = c :: acc := by
            simpa using hacc.symm
          subst hacc'
          rcases hmem with hmem | rfl
          · rcases List.mem_cons.mp hmem with rfl | hmem
            · exact Or.inl (by simp)
            · exact Or.inr ⟨acc, rfl, Or.inl hmem⟩
          · exact Or.inr ⟨acc, rfl, Or.inr rfl⟩

theorem stripBracketsGo_none_subset {cs : List Char} {x : Char}
    (hx : x ∈ stripBracketsGo none cs) : x ∈ cs := by
  rcases stripBracketsGo_subset cs none x hx with h | ⟨acc, hacc, -⟩
  · exact h
  · exact absurd hacc (by simp)

theorem stripBracketsGo_id : ∀ cs : List Char, '[' ∉ cs →
    stripBracketsGo none cs = cs := by
  intro cs
  induction cs with
  | nil => intro _; rfl
  | cons c rest ih =>
    intro h
    have hc : ¬(c = '[') := fun he => h (by simp [he])
    have e : stripBracketsGo none (c :: rest) =
        if c = '[' then stripBracketsGo (some []) rest
        else c :: stripBracketsGo none rest := rfl
    rw [e, if_neg hc, ih (fun hm => h (List.mem_cons_of_mem _ hm))]

theorem boldPhraseF_id : ∀ (f : Nat) (p cs : List Char),
    subOcc (lowerL p) (lowerL cs) = false → boldPhraseF p f cs = cs := by
  intro f
  induction f with
  | zero => intro p cs _; rfl
  | succ f ih =>
    intro p cs hs
    match cs with
    | [] => rfl
    | c :: rest =>
      have e : boldPhraseF p (f + 1) (c :: rest) =
          if p ≠ [] ∧ lpreCI p (c :: rest) = true then
            "<strong>".toList ++ (c :: rest).take p.length ++
              "</strong>".toList ++ boldPhraseF p f ((c :: rest).drop p.length)
          else c :: boldPhraseF p f rest := rfl
      rw [lowerL_cons] at hs
      have hcond : ¬(p ≠ [] ∧ lpreCI p (c :: rest) = true) := by
        rintro ⟨-, hl⟩
        rw [lpreCI, lowerL_cons] at hl
        rw [(subOcc_cons_false hs).1] at hl
        exact absurd hl (by simp)
      rw [e, if_neg hcond, ih p rest (subOcc_cons_false hs).2]

theorem boldPhraseF_subset : ∀ (f : Nat) (p cs : List Char) (x : Char),
    x ∈ boldPhraseF p f cs → x ∈ cs ∨ x ∈ "<strong></strong>".toList := by
  intro f
  induction f with
  | zero => intro p cs x hx; exact Or.inl hx
  | succ f ih =>
    intro p cs x hx
    match cs with
    | [] => simpa [boldPhraseF] using hx
    | c :: rest =>
      have e : boldPhraseF p (f + 1) (c :: rest) =
          if p ≠ [] ∧ lpreCI p (c :: rest) = true then
            "<strong>".toList ++ (c :: rest).take p.length ++
              "</strong>".toList ++ boldPhraseF p f ((c :: rest).drop p.length)
          else c :: boldPhraseF p f rest := rfl
      rw [e] at hx
      have htags : "<strong></strong>".toList =
          "<strong>".toList ++ "</strong>".toList := by decide
      by_cases hcond : p ≠ [] ∧ lpreCI p (c :: rest) = true
      · rw [if_pos hcond] at hx
        rcases List.mem_append.mp hx with hx | hx
        · rcases List.mem_append.mp hx with hx | hx
          · rcases List.mem_append.mp hx with hx | hx
            · exact Or.inr (by rw [htags]; exact List.mem_append.mpr (Or.inl hx))
            · exact Or.inl (List.take_subset _ _ hx)
          · exact Or.inr (by rw [htags]; exact List.mem_append.mpr (Or.inr hx))
        · rcases ih p _ x hx with hx | hx
          · exact Or.inl (List.drop_subset _ _ hx)
          · exact Or.inr hx
      · rw [if_neg hcond] at hx
        rcases List.mem_cons.mp hx with rfl | hx
        · exact Or.inl (by simp)
        · rcases ih p rest x hx with hx | hx
          · exact Or.inl (List.mem_cons_of_mem _ hx)
          · exact Or.inr hx

theorem boldPhrase_no_marker (p : List Char) {cs : List Char}
    (h : '【' ∉ cs) : '【' ∉ boldPhrase p cs := by
  intro hx
  rcases boldPhraseF_subset _ p cs '【' hx with hx | hx
  · exact h hx
  · exact absurd hx (by decide)

theorem boldHeadings_no_marker {cs : List Char} (h : '【' ∉ cs) :
    '【' ∉ boldHeadings cs :=
  boldPhrase_no_marker _ (boldPhrase_no_marker _ (boldPhrase_no_marker _
    (boldPhrase_no_marker _ (boldPhrase_no_marker _ h))))

theorem unifyAuxF_id : ∀ (f : Nat) (cs : List Char)
    (coll : List (List Char)), '【' ∉ cs → unifyAuxF f cs coll = (cs, coll) := by
  intro f
  induction f with
  | zero => intro cs coll _; rfl
  | succ f ih =>
    intro cs coll h
    match cs with
    | [] => rw [unifyAuxF_nil]
    | c :: rest =>
      have hc : c ≠ '【' := fun he => h (by simp [he])
      have hpr : parseRun (c :: rest) = none :=
        parseRun_none (tryMarker_cons_ne hc)
      rw [unifyAuxF_succ_none coll hpr, ih rest coll
        (fun hm => h (List.mem_cons_of_mem _ hm))]

theorem unify_id {cs : List Char} (coll : List (List Char))
    (h : '【' ∉ cs) : unifyConsecutiveReferences cs coll = (cs, coll) :=
  unifyAuxF_id _ _ _ h

theorem findTrigger_none {cs : List Char}
    (h1 : lpreCI "Refer to".toList cs = false)
    (h2 : lpreCI "See".toList cs = false)
    (h3 : lpreCI "For".toList cs = false) : findTrigger cs = none := by
  rw [findTrigger, if_neg (by rw [h1]; simp), if_neg (by rw [h2]; simp),
    if_neg (by rw [h3]; simp)]

theorem tryLink_none {cs : List Char} (h : findTrigger cs = none) :
    tryLink cs = none := by
  rw [tryLink, h]

theorem linkRefsF_id : ∀ (f : Nat) (cs : List Char),
    subOcc (lowerL "Refer to".toList) (lowerL cs) = false →
    subOcc (lowerL "See".toList) (lowerL cs) = false →
    subOcc (lowerL "For".toList) (lowerL cs) = false →
    linkRefsF f cs = cs := by
  intro f
  induction f with
  | zero => intro cs _ _ _; rfl
  | succ f ih =>
    intro cs hR hS hF
    match cs with
    | [] => rfl
    | c :: rest =>
      rw [lowerL_cons] at hR hS hF
      have hnone : tryLink (c :: rest) = none := by
        refine tryLink_none (findTrigger_none ?_ ?_ ?_) <;>
          rw [lpreCI, lowerL_cons]
        · exact (subOcc_cons_false hR).1
        · exact (subOcc_cons_false hS).1
        · exact (subOcc_cons_false hF).1
      have e : linkRefsF (f + 1) (c :: rest) =
          (match tryLink (c :: rest) with
           | some n =>
             linkOpen ++ (c :: rest).take n ++ linkClose ++
               linkRefsF f ((c :: rest).drop n)
           | none => c :: linkRefsF f rest) := rfl
      rw [e, hnone]
      rw [ih rest (subOcc_cons_false hR).2 (subOcc_cons_false hS).2
        (subOcc_cons_false hF).2]

theorem linkReferences_id {cs : List Char}
    (hR : subOcc (lowerL "Refer to".toList) (lowerL cs) = false)
    (hS : subOcc (lowerL "See".toList) (lowerL cs) = false)
    (hF : subOcc (lowerL "For".toList) (lowerL cs) = false) :
    linkReferences cs = cs :=
  linkRefsF_id _ _ hR hS hF

theorem dropWhile_dropWhile (p : Char → Bool) :
    ∀ l : List Char, (l.dropWhile p).dropWhile p = l.dropWhile p := by
  intro l
  induction l with
  | nil => rfl
  | cons c rest ih =>
    by_cases h : p c = true
    · simp [List.dropWhile_cons, h, ih]
    · simp [List.dropWhile_cons, h]

theorem jsTrim_decomp (x : List Char) :
    x = x.takeWhile isJsWs ++ jsTrim x ++
      (((x.dropWhile isJsWs).reverse.takeWhile isJsWs).reverse) := by
  have hz : x.dropWhile isJsWs =
      jsTrim x ++ ((x.dropWhile isJsWs).reverse.takeWhile isJsWs).reverse := by
    have h1 : (x.dropWhile isJsWs).reverse =
        (x.dropWhile isJsWs).reverse.takeWhile isJsWs ++
          (x.dropWhile isJsWs).reverse.dropWhile isJsWs :=
      (List.takeWhile_append_dropWhile _ _).symm
    have h2 : x.dropWhile isJsWs = ((x.dropWhile isJsWs).reverse).reverse :=
      (List.reverse_reverse _).symm
    rw [jsTrim]
    calc x.dropWhile isJsWs = ((x.dropWhile isJsWs).reverse).reverse := h2
      _ = ((x.dropWhile isJsWs).reverse.takeWhile isJsWs ++
            (x.dropWhile isJsWs).reverse.dropWhile isJsWs).reverse := by
            rw [← h1]
      _ = ((x.dropWhile isJsWs).reverse.dropWhile isJsWs).reverse ++
            ((x.dropWhile isJsWs).reverse.takeWhile isJsWs).reverse := by
            rw [List.reverse_append]
  calc x = x.takeWhile isJsWs ++ x.dropWhile isJsWs :=
        (List.takeWhile_append_dropWhile _ _).symm
    _ = x.takeWhile isJsWs ++ (jsTrim x ++
          ((x.dropWhile isJsWs).reverse.takeWhile isJsWs).reverse) := by
        rw [← hz]
    _ = x.takeWhile isJsWs ++ jsTrim x ++
          ((x.dropWhile isJsWs).reverse.takeWhile isJsWs).reverse := by
        rw [List.append_assoc]

theorem jsTrim_idem (x : List Char) : jsTrim (jsTrim x) = jsTrim x := by
  have hz : x.dropWhile isJsWs =
      jsTrim x ++ ((x.dropWhile isJsWs).reverse.takeWhile isJsWs).reverse := by
    have := jsTrim_decomp x
    conv_lhs at this =>
      rw [← List.takeWhile_append_dropWhile (p := isJsWs) (l := x)]
    rw [List.append_assoc] at this
    exact List.append_cancel_left this
  have h2 : (jsTrim x).dropWhile isJsWs = jsTrim x := by
    match hj : jsTrim x with
    | [] => rfl
    | c :: w =>
      obtain ⟨tl, hz'⟩ : ∃ tl, x.dropWhile isJsWs = jsTrim x ++ tl := ⟨_, hz⟩
      have hzc : x.dropWhile isJsWs = c :: (w ++ tl) := by
        rw [hz', hj]; simp
      have hc : isJsWs c = false := dropWhile_head_false hzc
      rw [List.dropWhile_cons, if_neg (by simp [hc])]
  have h3 : (jsTrim x).reverse = (x.dropWhile isJsWs).reverse.dropWhile isJsWs := by
    rw [jsTrim, List.reverse_reverse]
  calc jsTrim (jsTrim x)
      = (((jsTrim x).dropWhile isJsWs).reverse.dropWhile isJsWs).reverse := rfl
    _ = ((jsTrim x).reverse.dropWhile isJsWs).reverse := by rw [h2]
    _ = (((x.dropWhile isJsWs).reverse.dropWhile isJsWs).dropWhile isJsWs).reverse := by
        rw [h3]
    _ = ((x.dropWhile isJsWs).reverse.dropWhile isJsWs).reverse := by
        rw [dropWhile_dropWhile]
    _ = jsTrim x := rfl

theorem lowerL_append (a b : List Char) :
    lowerL (a ++ b) = lowerL a ++ lowerL b := by
  simp [lowerL]

theorem subOcc_false_of_decomp {p mid : List Char} (u v : List Char)
    (h : subOcc p (u ++ mid ++ v) = false) : subOcc p mid = false := by
  match hOcc : subOcc p mid with
  | false => rfl
  | true =>
    obtain ⟨a, b, rfl⟩ := decomp_of_subOcc hOcc
    have hd := subOcc_of_decomp p (u ++ a) (b ++ v)
    rw [show (u ++ a) ++ p ++ (b ++ v) = u ++ (a ++ p ++ b) ++ v by
      simp [List.append_assoc]] at hd
    rw [hd] at h
    exact absurd h (by simp)

/-- If every pass of the annotator leaves the text unchanged, the
annotator is exactly trimming. -/
theorem sanitize_fixed {x : List Char}
    (h1 : '#' ∉ x) (h2 : subOcc "**".toList x = false) (h3 : '[' ∉ x)
    (h4 : '【' ∉ x)
    (h5 : ∀ ph ∈ headingPhrases, subOcc (lowerL ph) (lowerL x) = false)
    (h6 : ∀ tr ∈ linkTriggers, subOcc (lowerL tr) (lowerL x) = false) :
    sanitizeAssistantResponse x = (jsTrim x, []) := by
  have e1 : stripHashGo false x = x := stripHashGo_id x h1
  have e2 : stripStars x = x := stripStars_id x.length x le_rfl h2
  have e3 : stripBracketsGo none x = x := stripBracketsGo_id x h3
  have b1 : boldPhrase "Question Asked".toList x = x :=
    boldPhraseF_id _ _ _ (h5 _ (by simp [headingPhrases]))
  have b2 : boldPhrase "Extracted Insight".toList x = x :=
    boldPhraseF_id _ _ _ (h5 _ (by simp [headingPhrases]))
  have b3 : boldPhrase "Document Section/Page".toList x = x :=
    boldPhraseF_id _ _ _ (h5 _ (by simp [headingPhrases]))
  have b4 : boldPhrase "Confidence Score".toList x = x :=
    boldPhraseF_id _ _ _ (h5 _ (by simp [headingPhrases]))
  have b5 : boldPhrase "Additional Notes".toList x = x :=
    boldPhraseF_id _ _ _ (h5 _ (by simp [headingPhrases]))
  have e4 : boldHeadings x = x := by
    rw [boldHeadings, b1, b2, b3, b4, b5]
  have e5 : unifyConsecutiveReferences x [] = (x, []) := unify_id [] h4
  have e6 : linkReferences x = x :=
    linkReferences_id (h6 _ (by simp [linkTriggers]))
      (h6 _ (by simp [linkTriggers])) (h6 _ (by simp [linkTriggers]))
  rw [sanitize_unfold, e1, e2, e3, e4, e5]
  dsimp only
  rw [e6]

/-- C3 (amended): the annotator is idempotent on every text that each
transformation pass leaves unchanged — one containing no markdown
hash, no double-asterisk, no opening bracket, no marker-opening
character, no heading phrase (case-insensitively) and no link-trigger
phrase (case-insensitively).  On the original claim's hypotheses alone
(no markdown markers, no reference markers) idempotence fails: the
heading-bolding pass re-wraps its own output (see the counterexample). -/
theorem c3_annotate_idempotent_amended (x : List Char)
    (h1 : '#' ∉ x) (h2 : subOcc "**".toList x = false) (h3 : '[' ∉ x)
    (h4 : '【' ∉ x)
    (h5 : ∀ ph ∈ headingPhrases, subOcc (lowerL ph) (lowerL x) = false)
    (h6 : ∀ tr ∈ linkTriggers, subOcc (lowerL tr) (lowerL x) = false) :
    (sanitizeAssistantResponse ((sanitizeAssistantResponse x).1)).1 =
      (sanitizeAssistantResponse x).1 := by
  have hs := sanitize_fixed h1 h2 h3 h4 h5 h6
  have hfst : (sanitizeAssistantResponse x).1 = jsTrim x := by rw [hs]
  rw [hfst]
  obtain ⟨a, b, hab⟩ : ∃ a b, x = a ++ jsTrim x ++ b := ⟨_, _, jsTrim_decomp x⟩
  have hE : lowerL x = lowerL a ++ lowerL (jsTrim x) ++ lowerL b := by
    have e := congrArg lowerL hab
    rw [lowerL_append, lowerL_append] at e
    exact e
  have h1' : '#' ∉ jsTrim x := fun hm => h1 (by rw [hab]; simp [hm])
  have h2' : subOcc "**".toList (jsTrim x) = false :=
    subOcc_false_of_decomp a b (hab ▸ h2)
  have h3' : '[' ∉ jsTrim x := fun hm => h3 (by rw [hab]; simp [hm])
  have h4' : '【' ∉ jsTrim x := fun hm => h4 (by rw [hab]; simp [hm])
  have h5' : ∀ ph ∈ headingPhrases,
      subOcc (lowerL ph) (lowerL (jsTrim x)) = false := fun ph hph =>
    subOcc_false_of_decomp (lowerL a) (lowerL b) (hE ▸ h5 ph hph)
  have h6' : ∀ tr ∈ linkTriggers,
      subOcc (lowerL tr) (lowerL (jsTrim x)) = false := fun tr htr =>
    subOcc_false_of_decomp (lowerL a) (lowerL b) (hE ▸ h6 tr htr)
  have hs' := sanitize_fixed h1' h2' h3' h4' h5' h6'
  rw [hs']
  exact jsTrim_idem x

/-- Counterexample to C3 as stated: "Question Asked" contains no
markdown markers and no reference markers, yet annotating twice wraps
the heading in a second strong tag, so the result differs from
annotating once. -/
theorem c3_counterexample :
    ('#' ∉ "Question Asked".toList ∧ '*' ∉ "Question Asked".toList ∧
     '[' ∉ "Question Asked".toList ∧ '【' ∉ "Question Asked".toList) ∧
    (sanitizeAssistantResponse
        ((sanitizeAssistantResponse "Question Asked".toList).1)).1 ≠
      (sanitizeAssistantResponse "Question Asked".toList).1 := by
  exact ⟨by decide, by decide⟩

/-- Witness for c3_annotate_idempotent_amended at a concrete text. -/
theorem c3_annotate_idempotent_amended_witness :
    '#' ∉ "hello world".toList ∧
    (sanitizeAssistantResponse
        ((sanitizeAssistantResponse "hello world".toList).1)).1 =
      (sanitizeAssistantResponse "hello world".toList).1 :=
  ⟨by decide, c3_annotate_idempotent_amended "hello world".toList (by decide)
    (by decide) (by decide) (by decide) (by decide) (by decide)⟩

/-- C9 (amended): on input free of the marker-opening character '【',
the unification pass leaves the text unchanged and collects nothing:
the annotator returns the markdown-stripped, heading-bolded,
phrase-linked, trimmed text with CollectedReferences empty. -/
theorem c9_no_markers_amended (x : List Char) (h : '【' ∉ x) :
    (sanitizeAssistantResponse x).2 = [] ∧
    unifyConsecutiveReferences (boldHeadings (stripBracketsGo none
        (stripStars (stripHashGo false x)))) [] =
      (boldHeadings (stripBracketsGo none (stripStars (stripHashGo false x))),
        []) ∧
    (sanitizeAssistantResponse x).1 =
      jsTrim (linkReferences (boldHeadings (stripBracketsGo none
        (stripStars (stripHashGo false x))))) := by
  have hp1 : '【' ∉ stripHashGo false x :=
    fun hm => h (stripHashGo_subset _ _ _ hm)
  have hp2 : '【' ∉ stripStars (stripHashGo false x) :=
    fun hm => hp1 (stripStars_subset _ _ le_rfl _ hm)
  have hp3 : '【' ∉ stripBracketsGo none (stripStars (stripHashGo false x)) :=
    fun hm => hp2 (stripBracketsGo_none_subset hm)
  have hp4 : '【' ∉ boldHeadings (stripBracketsGo none
      (stripStars (stripHashGo false x))) := boldHeadings_no_marker hp3
  have hu := unify_id [] hp4
  refine ⟨?_, hu, ?_⟩
  · rw [sanitize_snd, hu]
  · rw [sanitize_fst, hu]

/-- Any decomposition of a text around a well-formed marker makes
hasMarker true. -/
theorem hasMarker_of_decomp {x pre code post : List Char}
    (hx : x = pre ++ markerText code ++ post) (h0 : code ≠ [])
    (ht : ∀ a ∈ code, a ≠ '†') : hasMarker x = true := by
  rw [hasMarker, List.any_eq_true]
  refine ⟨markerText code ++ post, ?_, ?_⟩
  · rw [List.mem_tails]
    exact ⟨pre, by rw [hx, List.append_assoc]⟩
  · rw [tryMarker_mk post h0 ht]
    rfl

/-- Counterexample to C9 as stated: 【4:8†**source】 contains zero
reference markers (no decomposition around a well-formed marker exists),
yet annotating it leaves CollectedReferences non-empty, because the
markdown pass strips the ** and thereby synthesises a marker. -/
theorem c9_counterexample :
    hasMarker "【4:8†**source】".toList = false ∧
    (∀ pre code post : List Char,
      "【4:8†**source】".toList = pre ++ markerText code ++ post →
      code ≠ [] → (∀ a ∈ code, a ≠ '†') → False) ∧
    (sanitizeAssistantResponse "【4:8†**source】".toList).2 =
      ["Page 12, Section 4.8".toList] := by
  refine ⟨by decide, ?_, by decide⟩
  intro pre code post hx h0 ht
  have htrue := hasMarker_of_decomp hx h0 ht
  have hfalse : hasMarker "【4:8†**source】".toList = false := by decide
  rw [htrue] at hfalse
  exact absurd hfalse (by simp)

/-- Witness for c9_no_markers_amended at a concrete text. -/
theorem c9_no_markers_amended_witness :
    '【' ∉ "no refs here".toList ∧
    (sanitizeAssistantResponse "no refs here".toList).2 = [] :=
  ⟨by decide, (c9_no_markers_amended "no refs here".toList (by decide)).1⟩

/- ------------------------------------------------------------------
   Lemmas and claims about the network client.
   ------------------------------------------------------------------ -/

theorem jsStrEq_true {v : Js} {s : String} :
    jsStrEq v s = true ↔ v = Js.str s := by
  match v with
  | .null => simp [jsStrEq]
  | .undefV => simp [jsStrEq]
  | .bool b => simp [jsStrEq]
  | .num n => simp [jsStrEq]
  | .str t => simp [jsStrEq]
  | .arr xs => simp [jsStrEq]
  | .obj fs => simp [jsStrEq]

theorem jsStrEq_false {v : Js} {s : String} (h : v ≠ Js.str s) :
    jsStrEq v s = false := by
  match hq : jsStrEq v s with
  | false => rfl
  | true => exact absurd (jsStrEq_true.mp hq) h

theorem pollOnce_error_shape {r : Except JsError JsResponse}
    {out : PollOutcome} (h : pollOnce r = .error out) :
    (∃ e, out = .threw e) ∨ out = .noStatus := by
  match r with
  | .error e =>
    have h2 : Except.error (ε := PollOutcome) (.threw e) = .error out := h
    simp only [Except.error.injEq] at h2
    exact Or.inl ⟨e, h2.symm⟩
  | .ok resp =>
    match hb : resp.body with
    | .error e =>
      rw [pollOnce, hb] at h
      simp only [Except.error.injEq] at h
      exact Or.inl ⟨e, h.symm⟩
    | .ok pd =>
      rw [pollOnce, hb] at h
      have h2 : (match pd.get "status" with
        | Except.error e =>
          Except.error (ε := PollOutcome) (α := Js) (PollOutcome.threw e)
        | Except.ok stv =>
          if stv.truthy = true then Except.ok stv
          else Except.error PollOutcome.noStatus) = Except.error out := h
      match hs : pd.get "status" with
      | .error e =>
        rw [hs] at h2
        simp only [Except.error.injEq] at h2
        exact Or.inl ⟨e, h2.symm⟩
      | .ok stv =>
        rw [hs] at h2
        have h3 : (if stv.truthy = true then
            Except.ok (ε := PollOutcome) stv
          else Except.error PollOutcome.noStatus) = Except.error out := h2
        by_cases ht : stv.truthy = true
        · rw [if_pos ht] at h3
          exact absurd h3 (by simp)
        · rw [if_neg ht] at h3
          simp only [Except.error.injEq] at h3
          exact Or.inr h3.symm

theorem pollLoop_done_eq : ∀ (fuel : Nat)
    (p : Nat → Except JsError JsResponse) (st : Js) (i : Nat) (s : Js),
    pollLoop p st i fuel = some (.done s) →
    s = Js.str "completed" ∨ s = Js.str "failed" := by
  intro fuel
  induction fuel with
  | zero =>
    intro p st i s h
    rw [pollLoop] at h
    by_cases hc : (jsStrEq st "completed" || jsStrEq st "failed") = true
    · rw [if_pos hc] at h
      simp only [Option.some.injEq, PollOutcome.done.injEq] at h
      subst h
      rcases Bool.or_eq_true_iff.mp hc with h' | h'
      · exact Or.inl (jsStrEq_true.mp h')
      · exact Or.inr (jsStrEq_true.mp h')
    · rw [if_neg hc] at h
      simp at h
  | succ fuel ih =>
    intro p st i s h
    rw [pollLoop] at h
    by_cases hc : (jsStrEq st "completed" || jsStrEq st "failed") = true
    · rw [if_pos hc] at h
      simp only [Option.some.injEq, PollOutcome.done.injEq] at h
      subst h
      rcases Bool.or_eq_true_iff.mp hc with h' | h'
      · exact Or.inl (jsStrEq_true.mp h')
      · exact Or.inr (jsStrEq_true.mp h')
    · rw [if_neg hc] at h
      have h2 : (match pollOnce (p i) with
        | .error out => some out
        | .ok stv => pollLoop p stv (i + 1) fuel) = some (.done s) := h
      match hpo : pollOnce (p i) with
      | .error out =>
        rw [hpo] at h2
        simp only [Option.some.injEq] at h2
        subst h2
        rcases pollOnce_error_shape hpo with ⟨e, he⟩ | he <;> simp at he
      | .ok stv =>
        rw [hpo] at h2
        exact ih p stv (i + 1) s h2

theorem pollLoop_diverges : ∀ (fuel : Nat)
    (p : Nat → Except JsError JsResponse) (st : Js) (i : Nat),
    (∀ j, NonTerminalPoll p j) → st ≠ Js.str "completed" →
    st ≠ Js.str "failed" → pollLoop p st i fuel = none := by
  intro fuel
  induction fuel with
  | zero =>
    intro p st i _ h1 h2
    rw [pollLoop, if_neg (by simp [jsStrEq_false h1, jsStrEq_false h2])]
  | succ fuel ih =>
    intro p st i hnt h1 h2
    rw [pollLoop, if_neg (by simp [jsStrEq_false h1, jsStrEq_false h2])]
    obtain ⟨stv, hpo, hsc, hsf⟩ := hnt i
    show (match pollOnce (p i) with
      | .error out => some out
      | .ok stv => pollLoop p stv (i + 1) fuel) = none
    rw [hpo]
    exact ih p stv (i + 1) hnt hsc hsf

/-- C5: the delay between poll iterations is the fixed constant 1000
milliseconds; the poll loop terminates with a done outcome only when
the observed status is 'completed' or 'failed'; and no retry bound or
timeout exists — for every status sequence that always carries a
truthy, non-terminal status, the loop is still running after any
number of iterations. -/
theorem c5_poll_terminal_only_unbounded :
    pollDelayMs = 1000 ∧
    (∀ (fuel : Nat) (p : Nat → Except JsError JsResponse) (st : Js)
      (i : Nat) (s : Js), pollLoop p st i fuel = some (.done s) →
      s = Js.str "completed" ∨ s = Js.str "failed") ∧
    (∀ (p : Nat → Except JsError JsResponse) (st : Js) (i : Nat),
      (∀ j, NonTerminalPoll p j) → st ≠ Js.str "completed" →
      st ≠ Js.str "failed" → ∀ fuel, pollLoop p st i fuel = none) :=
  ⟨rfl, pollLoop_done_eq,
   fun p st i h h1 h2 fuel => pollLoop_diverges fuel p st i h h1 h2⟩

/-- Witness for c5_poll_terminal_only_unbounded: the always-in_progress
trace keeps the loop running past any concrete bound. -/
theorem c5_poll_terminal_only_unbounded_witness :
    (∀ j, NonTerminalPoll inProgressTrace.poll j) ∧
    pollLoop inProgressTrace.poll (Js.str "queued") 0 7 = none :=
  ⟨fun _ => ⟨Js.str "in_progress", rfl, by simp, by simp⟩,
   c5_poll_terminal_only_unbounded.2.2 inProgressTrace.poll
     (Js.str "queued") 0
     (fun _ => ⟨Js.str "in_progress", rfl, by simp, by simp⟩)
     (by simp) (by simp) 7⟩

/-- Counterexample to C10 as stated: on the trace whose poll statuses
are truthy and never terminal, createThreadWithMessage never returns at
all (for every iteration bound), so it does not "always return a
string". -/
theorem c10_counterexample : neverReturns inProgressTrace := by
  intro fuel
  have hdiv : pollLoop inProgressTrace.poll (Js.str "queued") 0 fuel = none :=
    pollLoop_diverges fuel _ _ 0
      (fun _ => ⟨Js.str "in_progress", rfl, by simp, by simp⟩)
      (by simp) (by simp)
  have e1 : clientBody inProgressTrace fuel =
      (match pollLoop inProgressTrace.poll (Js.str "queued") 0 fuel with
       | none => none
       | some (.threw e) => some (.error e)
       | some .noStatus => some (.ok (.str "Failed to retrieve run status."))
       | some (.done st) =>
         if jsStrEq st "failed" then
           some (.ok (.str "Assistant failed to process the thread."))
         else some (fetchMessages inProgressTrace.getMessages)) := rfl
  rw [createThreadWithMessage, e1, hdiv]

/-- C10 (amended): createThreadWithMessage never propagates an
exception — whenever its body produces an outcome, the call returns a
value: a thrown error is converted by the outer catch into the error
string, a returned value passes through unchanged, and the call fails
to return only when the poll loop is still running. -/
theorem c10_catch_total_amended (t : NetTrace) (fuel : Nat) :
    (∀ e, clientBody t fuel = some (.error e) →
      createThreadWithMessage t fuel =
        some (.str ("An error occurred while processing your request: " ++
          e.message))) ∧
    (∀ v, clientBody t fuel = some (.ok v) →
      createThreadWithMessage t fuel = some v) ∧
    (createThreadWithMessage t fuel = none → clientBody t fuel = none) := by
  refine ⟨?_, ?_, ?_⟩
  · intro e h
    rw [createThreadWithMessage, h]
  · intro v h
    rw [createThreadWithMessage, h]
  · intro h
    match hc : clientBody t fuel with
    | none => rfl
    | some (.ok v) =>
      rw [createThreadWithMessage, hc] at h
      exact absurd h (by simp)
    | some (.error e) =>
      rw [createThreadWithMessage, hc] at h
      exact absurd h (by simp)

/-- Witness for c10_catch_total_amended: a trace whose thread-creation
fetch throws is converted by the catch into the error string. -/
theorem c10_catch_total_amended_witness :
    clientBody ⟨.error ⟨"network down"⟩, okResp .null, okResp .null,
        fun _ => okResp .null, okResp .null⟩ 1 =
      some (.error ⟨"network down"⟩) ∧
    createThreadWithMessage ⟨.error ⟨"network down"⟩, okResp .null,
        okResp .null, fun _ => okResp .null, okResp .null⟩ 1 =
      some (.str ("An error occurred while processing your request: " ++
        "network down")) :=
  ⟨rfl, (c10_catch_total_amended _ 1).1 ⟨"network down"⟩ rfl⟩

/-- Symbolic execution of the client through its three successful setup
steps when the poll loop reaches a done status. -/
theorem clientBody_poll_done {t : NetTrace} {fuel : Nat}
    {r1 r2 r3 : JsResponse} {b1 b2 b3 i1 i3 st0 st : Js}
    (hc : t.createThread = .ok r1) (hb1 : r1.body = .ok b1)
    (hok1 : r1.ok = true) (hid1 : b1.get "id" = .ok i1)
    (hm : t.addMessage = .ok r2) (hb2 : r2.body = .ok b2)
    (hok2 : r2.ok = true)
    (hr : t.startRun = .ok r3) (hb3 : r3.body = .ok b3)
    (hok3 : r3.ok = true) (hid3 : b3.get "id" = .ok i3)
    (hst : b3.get "status" = .ok st0)
    (hpoll : pollLoop t.poll st0 0 fuel = some (.done st)) :
    clientBody t fuel =
      (if jsStrEq st "failed" then
        some (.ok (.str "Assistant failed to process the thread."))
      else some (fetchMessages t.getMessages)) := by
  simp only [clientBody, hc, hb1, hok1, hid1, hm, hb2, hok2, hr, hb3, hok3,
    hid3, hst, hpoll, reduceIte, Bool.true_eq_false, ite_false]

/-- Symbolic execution of the client when the poll loop hits a falsy
status field. -/
theorem clientBody_poll_noStatus {t : NetTrace} {fuel : Nat}
    {r1 r2 r3 : JsResponse} {b1 b2 b3 i1 i3 st0 : Js}
    (hc : t.createThread = .ok r1) (hb1 : r1.body = .ok b1)
    (hok1 : r1.ok = true) (hid1 : b1.get "id" = .ok i1)
    (hm : t.addMessage = .ok r2) (hb2 : r2.body = .ok b2)
    (hok2 : r2.ok = true)
    (hr : t.startRun = .ok r3) (hb3 : r3.body = .ok b3)
    (hok3 : r3.ok = true) (hid3 : b3.get "id" = .ok i3)
    (hst : b3.get "status" = .ok st0)
    (hpoll : pollLoop t.poll st0 0 fuel = some .noStatus) :
    clientBody t fuel = some (.ok (.str "Failed to retrieve run status.")) := by
  simp only [clientBody, hc, hb1, hok1, hid1, hm, hb2, hok2, hr, hb3, hok3,
    hid3, hst, hpoll, reduceIte, Bool.true_eq_false, ite_false]

/-- C6: when the run terminates with status 'failed', the call returns
the fixed failure string, and the result does not depend on the
messages endpoint at all — the assistant message is never fetched, so
no assistant text can be rendered. -/
theorem c6_run_failed {t : NetTrace} {fuel : Nat}
    {r1 r2 r3 : JsResponse} {b1 b2 b3 i1 i3 st0 : Js}
    (hc : t.createThread = .ok r1) (hb1 : r1.body = .ok b1)
    (hok1 : r1.ok = true) (hid1 : b1.get "id" = .ok i1)
    (hm : t.addMessage = .ok r2) (hb2 : r2.body = .ok b2)
    (hok2 : r2.ok = true)
    (hr : t.startRun = .ok r3) (hb3 : r3.body = .ok b3)
    (hok3 : r3.ok = true) (hid3 : b3.get "id" = .ok i3)
    (hst : b3.get "status" = .ok st0)
    (hpoll : pollLoop t.poll st0 0 fuel = some (.done (Js.str "failed"))) :
    createThreadWithMessage t fuel =
      some (.str "Assistant failed to process the thread.") ∧
    (∀ t' : NetTrace, t'.createThread = t.createThread →
      t'.addMessage = t.addMessage → t'.startRun = t.startRun →
      t'.poll = t.poll →
      createThreadWithMessage t' fuel = createThreadWithMessage t fuel) := by
  have hbody : clientBody t fuel =
      some (.ok (.str "Assistant failed to process the thread.")) := by
    rw [clientBody_poll_done hc hb1 hok1 hid1 hm hb2 hok2 hr hb3 hok3
      hid3 hst hpoll]
    simp [jsStrEq]
  constructor
  · rw [createThreadWithMessage, hbody]
  · intro t' e1 e2 e3 e4
    have hpoll' : pollLoop t'.poll st0 0 fuel =
        some (.done (Js.str "failed")) := by rw [e4, hpoll]
    have hbody' : clientBody t' fuel =
        some (.ok (.str "Assistant failed to process the thread.")) := by
      rw [clientBody_poll_done (e1.trans hc) hb1 hok1 hid1 (e2.trans hm)
        hb2 hok2 (e3.trans hr) hb3 hok3 hid3 hst hpoll']
      simp [jsStrEq]
    rw [createThreadWithMessage, hbody', createThreadWithMessage, hbody]

/-- Witness for c6_run_failed: a concrete trace whose run immediately
reports 'failed'. -/
theorem c6_run_failed_witness :
    createThreadWithMessage
      ⟨okResp (.obj [("id", .str "t1")]), okResp (.obj []),
       okResp (.obj [("id", .str "r1"), ("status", .str "queued")]),
       fun _ => okResp (.obj [("status", .str "failed")]),
       okResp (.obj [("data", .arr [.obj [("role", .str "assistant")]])])⟩ 3 =
      some (.str "Assistant failed to process the thread.") :=
  (@c6_run_failed
    ⟨okResp (.obj [("id", .str "t1")]), okResp (.obj []),
     okResp (.obj [("id", .str "r1"), ("status", .str "queued")]),
     fun _ => okResp (.obj [("status", .str "failed")]),
     okResp (.obj [("data", .arr [.obj [("role", .str "assistant")]])])⟩ 3
    ⟨true, 200, .ok (.obj [("id", .str "t1")])⟩
    ⟨true, 200, .ok (.obj [])⟩
    ⟨true, 200, .ok (.obj [("id", .str "r1"), ("status", .str "queued")])⟩
    (.obj [("id", .str "t1")]) (.obj [])
    (.obj [("id", .str "r1"), ("status", .str "queued")])
    (.str "t1") (.str "r1") (.str "queued")
    rfl rfl rfl rfl rfl rfl rfl rfl rfl rfl rfl rfl rfl).1

/-- Failure shape of step 1: non-ok thread creation. -/
theorem clientBody_create_fail {t : NetTrace} {fuel : Nat}
    {r : JsResponse} {b : Js} (hc : t.createThread = .ok r)
    (hb : r.body = .ok b) (hok : r.ok = false) :
    clientBody t fuel =
      some (.ok (.str ("Failed to create thread. Details: " ++
        jsToString b))) := by
  simp only [clientBody, hc, hb, hok, reduceIte]

/-- Failure shape of step 2: non-ok message post. -/
theorem clientBody_message_fail {t : NetTrace} {fuel : Nat}
    {r1 r2 : JsResponse} {b1 b2 i1 : Js}
    (hc : t.createThread = .ok r1) (hb1 : r1.body = .ok b1)
    (hok1 : r1.ok = true) (hid1 : b1.get "id" = .ok i1)
    (hm : t.addMessage = .ok r2) (hb2 : r2.body = .ok b2)
    (hok2 : r2.ok = false) :
    clientBody t fuel =
      some (.ok (.str ("Failed to add message to thread. Details: " ++
        jsStringifyTop b2))) := by
  simp only [clientBody, hc, hb1, hok1, hid1, hm, hb2, hok2, reduceIte,
    Bool.true_eq_false, ite_false]

/-- Failure shape of step 3: non-ok run start. -/
theorem clientBody_run_fail {t : NetTrace} {fuel : Nat}
    {r1 r2 r3 : JsResponse} {b1 b2 b3 i1 : Js}
    (hc : t.createThread = .ok r1) (hb1 : r1.body = .ok b1)
    (hok1 : r1.ok = true) (hid1 : b1.get "id" = .ok i1)
    (hm : t.addMessage = .ok r2) (hb2 : r2.body = .ok b2)
    (hok2 : r2.ok = true)
    (hr : t.startRun = .ok r3) (hb3 : r3.body = .ok b3)
    (hok3 : r3.ok = false) :
    clientBody t fuel =
      some (.ok (.str ("Failed to run assistant on thread. Details: " ++
        jsStringifyTop b3))) := by
  simp only [clientBody, hc, hb1, hok1, hid1, hm, hb2, hok2, hr, hb3, hok3,
    reduceIte, Bool.true_eq_false, ite_false]

/-- Failure shape of step 5: non-ok message listing. -/
theorem fetchMessages_fail {g : Except JsError JsResponse}
    {r : JsResponse} {b : Js} (hg : g = .ok r) (hb : r.body = .ok b)
    (hok : r.ok = false) :
    fetchMessages g =
      .ok (.str ("Failed to fetch assistant response. Status: " ++
        toString r.status ++ ", Details: " ++ jsStringifyTop b)) := by
  simp only [fetchMessages, hg, hb, hok, reduceIte]

/-- C7: failure at any of the five client steps is terminal for the
query — the call returns that step's error string at once, and the
result does not depend on the network outcomes of any later step (no
further calls, no retries); for the three setup steps it does not even
depend on the poll fuel. -/
theorem c7_step_failures :
    (∀ (t : NetTrace) (fuel : Nat) (r : JsResponse) (b : Js),
      t.createThread = .ok r → r.body = .ok b → r.ok = false →
      createThreadWithMessage t fuel =
        some (.str ("Failed to create thread. Details: " ++ jsToString b)) ∧
      (∀ (t₂ : NetTrace) (fuel₂ : Nat), t₂.createThread = t.createThread →
        createThreadWithMessage t₂ fuel₂ = createThreadWithMessage t fuel)) ∧
    (∀ (t : NetTrace) (fuel : Nat) (r1 r2 : JsResponse) (b1 b2 i1 : Js),
      t.createThread = .ok r1 → r1.body = .ok b1 → r1.ok = true →
      b1.get "id" = .ok i1 →
      t.addMessage = .ok r2 → r2.body = .ok b2 → r2.ok = false →
      createThreadWithMessage t fuel =
        some (.str ("Failed to add message to thread. Details: " ++
          jsStringifyTop b2)) ∧
      (∀ (t₂ : NetTrace) (fuel₂ : Nat), t₂.createThread = t.createThread →
        t₂.addMessage = t.addMessage →
        createThreadWithMessage t₂ fuel₂ = createThreadWithMessage t fuel)) ∧
    (∀ (t : NetTrace) (fuel : Nat) (r1 r2 r3 : JsResponse) (b1 b2 b3 i1 : Js),
      t.createThread = .ok r1 → r1.body = .ok b1 → r1.ok = true →
      b1.get "id" = .ok i1 →
      t.addMessage = .ok r2 → r2.body = .ok b2 → r2.ok = true →
      t.startRun = .ok r3 → r3.body = .ok b3 → r3.ok = false →
      createThreadWithMessage t fuel =
        some (.str ("Failed to run assistant on thread. Details: " ++
          jsStringifyTop b3)) ∧
      (∀ (t₂ : NetTrace) (fuel₂ : Nat), t₂.createThread = t.createThread →
        t₂.addMessage = t.addMessage → t₂.startRun = t.startRun →
        createThreadWithMessage t₂ fuel₂ = createThreadWithMessage t fuel)) ∧
    (∀ (t : NetTrace) (fuel : Nat) (r1 r2 r3 : JsResponse)
      (b1 b2 b3 i1 i3 st0 : Js),
      t.createThread = .ok r1 → r1.body = .ok b1 → r1.ok = true →
      b1.get "id" = .ok i1 →
      t.addMessage = .ok r2 → r2.body = .ok b2 → r2.ok = true →
      t.startRun = .ok r3 → r3.body = .ok b3 → r3.ok = true →
      b3.get "id" = .ok i3 → b3.get "status" = .ok st0 →
      pollLoop t.poll st0 0 fuel = some .noStatus →
      createThreadWithMessage t fuel =
        some (.str "Failed to retrieve run status.") ∧
      (∀ t₂ : NetTrace, t₂.createThread = t.createThread →
        t₂.addMessage = t.addMessage → t₂.startRun = t.startRun →
        t₂.poll = t.poll →
        createThreadWithMessage t₂ fuel = createThreadWithMessage t fuel)) ∧
    (∀ (t : NetTrace) (fuel : Nat) (r1 r2 r3 r5 : JsResponse)
      (b1 b2 b3 b5 i1 i3 st0 : Js),
      t.createThread = .ok r1 → r1.body = .ok b1 → r1.ok = true →
      b1.get "id" = .ok i1 →
      t.addMessage = .ok r2 → r2.body = .ok b2 → r2.ok = true →
      t.startRun = .ok r3 → r3.body = .ok b3 → r3.ok = true →
      b3.get "id" = .ok i3 → b3.get "status" = .ok st0 →
      pollLoop t.poll st0 0 fuel = some (.done (Js.str "completed")) →
      t.getMessages = .ok r5 → r5.body = .ok b5 → r5.ok = false →
      createThreadWithMessage t fuel =
        some (.str ("Failed to fetch assistant response. Status: " ++
          toString r5.status ++ ", Details: " ++ jsStringifyTop b5))) := by
  refine ⟨?_, ?_, ?_, ?_, ?_⟩
  · intro t fuel r b hc hb hok
    refine ⟨?_, ?_⟩
    · rw [createThreadWithMessage, clientBody_create_fail hc hb hok]
    · intro t₂ fuel₂ e1
      rw [createThreadWithMessage, clientBody_create_fail (e1.trans hc) hb hok,
        createThreadWithMessage, clientBody_create_fail hc hb hok]
  · intro t fuel r1 r2 b1 b2 i1 hc hb1 hok1 hid1 hm hb2 hok2
    refine ⟨?_, ?_⟩
    · rw [createThreadWithMessage,
        clientBody_message_fail hc hb1 hok1 hid1 hm hb2 hok2]
    · intro t₂ fuel₂ e1 e2
      rw [createThreadWithMessage, clientBody_message_fail (e1.trans hc) hb1
        hok1 hid1 (e2.trans hm) hb2 hok2, createThreadWithMessage,
        clientBody_message_fail hc hb1 hok1 hid1 hm hb2 hok2]
  · intro t fuel r1 r2 r3 b1 b2 b3 i1 hc hb1 hok1 hid1 hm hb2 hok2 hr hb3 hok3
    refine ⟨?_, ?_⟩
    · rw [createThreadWithMessage,
        clientBody_run_fail hc hb1 hok1 hid1 hm hb2 hok2 hr hb3 hok3]
    · intro t₂ fuel₂ e1 e2 e3
      rw [createThreadWithMessage, clientBody_run_fail (e1.trans hc) hb1 hok1
        hid1 (e2.trans hm) hb2 hok2 (e3.trans hr) hb3 hok3,
        createThreadWithMessage,
        clientBody_run_fail hc hb1 hok1 hid1 hm hb2 hok2 hr hb3 hok3]
  · intro t fuel r1 r2 r3 b1 b2 b3 i1 i3 st0 hc hb1 hok1 hid1 hm hb2 hok2 hr
      hb3 hok3 hid3 hst hpoll
    refine ⟨?_, ?_⟩
    · rw [createThreadWithMessage, clientBody_poll_noStatus hc hb1 hok1 hid1
        hm hb2 hok2 hr hb3 hok3 hid3 hst hpoll]
    · intro t₂ e1 e2 e3 e4
      have hpoll₂ : pollLoop t₂.poll st0 0 fuel = some .noStatus := by
        rw [e4, hpoll]
      rw [createThreadWithMessage, clientBody_poll_noStatus (e1.trans hc) hb1
        hok1 hid1 (e2.trans hm) hb2 hok2 (e3.trans hr) hb3 hok3 hid3 hst
        hpoll₂, createThreadWithMessage, clientBody_poll_noStatus hc hb1 hok1
        hid1 hm hb2 hok2 hr hb3 hok3 hid3 hst hpoll]
  · intro t fuel r1 r2 r3 r5 b1 b2 b3 b5 i1 i3 st0 hc hb1 hok1 hid1 hm hb2
      hok2 hr hb3 hok3 hid3 hst hpoll hg hb5 hok5
    rw [createThreadWithMessage, clientBody_poll_done hc hb1 hok1 hid1 hm hb2
      hok2 hr hb3 hok3 hid3 hst hpoll, if_neg (by simp [jsStrEq]),
      fetchMessages_fail hg hb5 hok5]

/-- Witness for c7_step_failures: the first conjunct applied to a trace
whose thread creation returns a non-ok response with a null body. -/
theorem c7_step_failures_witness :
    createThreadWithMessage
      ⟨.ok ⟨false, 500, .ok .null⟩, okResp .null, okResp .null,
       fun _ => okResp .null, okResp .null⟩ 2 =
      some (.str ("Failed to create thread. Details: " ++ jsToString .null)) :=
  (c7_step_failures.1
    ⟨.ok ⟨false, 500, .ok .null⟩, okResp .null, okResp .null,
     fun _ => okResp .null, okResp .null⟩ 2
    ⟨false, 500, .ok .null⟩ .null rfl rfl rfl).1

/-- find((msg) => msg.role === 'assistant') returns the first element
whose role is 'assistant' when the earlier elements all have a
non-assistant role. -/
theorem findAssistant_found (pre : List Js) (am : Js) (rest : List Js)
    (hpre : ∀ m ∈ pre, ∃ rv, m.get "role" = .ok rv ∧
      jsStrEq rv "assistant" = false)
    (ham : am.get "role" = .ok (Js.str "assistant")) :
    findAssistant (pre ++ am :: rest) = .ok (some am) := by
  induction pre with
  | nil =>
    simp only [List.nil_append, findAssistant, ham]
    rfl
  | cons m pre ih =>
    obtain ⟨rv, h1, h2⟩ := hpre m (List.mem_cons_self m pre)
    simp only [List.cons_append, findAssistant, h1, h2, Bool.false_eq_true,
      ite_false]
    exact ih fun m' hm' => hpre m' (List.mem_cons_of_mem m hm')

/-- find((msg) => msg.role === 'assistant') returns undefined when no
element has role 'assistant'. -/
theorem findAssistant_none (ms : List Js)
    (h : ∀ m ∈ ms, ∃ rv, m.get "role" = .ok rv ∧
      jsStrEq rv "assistant" = false) :
    findAssistant ms = .ok none := by
  induction ms with
  | nil => rfl
  | cons m rest ih =>
    obtain ⟨rv, h1, h2⟩ := h m (List.mem_cons_self m rest)
    simp only [findAssistant, h1, h2, Bool.false_eq_true, ite_false]
    exact ih fun m' hm' => h m' (List.mem_cons_of_mem m hm')

/-- Shape of step 5 when an assistant message is found: the result is
its primary text if content and text payload are truthy, else the
empty-response error. -/
theorem fetchMessages_assistant {g : Except JsError JsResponse}
    {r5 : JsResponse} {md am : Js} {ms : List Js}
    (hg : g = .ok r5) (hb : r5.body = .ok md) (hok : r5.ok = true)
    (htr : md.truthy = true) (hdata : optChainField md "data" = .arr ms)
    (hne : ms ≠ []) (hfind : findAssistant ms = .ok (some am)) :
    fetchMessages g =
      (if (optChainField am "content").truthy then
        (if (primaryText (optChainField am "content")).truthy then
          .ok (primaryText (optChainField am "content"))
        else .ok (.str "No response from assistant."))
      else .ok (.str "No response from assistant.")) := by
  cases ms with
  | nil => exact absurd rfl hne
  | cons m0 ms' =>
    simp only [fetchMessages, hg, hb, hok, htr, hdata, hfind,
      Bool.true_eq_false, ite_false]

/-- Shape of step 5 when no listed message has role 'assistant'. -/
theorem fetchMessages_noassistant {g : Except JsError JsResponse}
    {r5 : JsResponse} {md : Js} {ms : List Js}
    (hg : g = .ok r5) (hb : r5.body = .ok md) (hok : r5.ok = true)
    (htr : md.truthy = true) (hdata : optChainField md "data" = .arr ms)
    (hne : ms ≠ []) (hfind : findAssistant ms = .ok none) :
    fetchMessages g = .ok (.str "No response from assistant.") := by
  cases ms with
  | nil => exact absurd rfl hne
  | cons m0 ms' =>
    simp only [fetchMessages, hg, hb, hok, htr, hdata, hfind,
      Bool.true_eq_false, ite_false]

/-- Shape of step 5 when the data array is empty. -/
theorem fetchMessages_empty {g : Except JsError JsResponse}
    {r5 : JsResponse} {md : Js}
    (hg : g = .ok r5) (hb : r5.body = .ok md) (hok : r5.ok = true)
    (htr : md.truthy = true) (hdata : optChainField md "data" = .arr []) :
    fetchMessages g =
      .ok (.str ("No messages found or the response structure is unexpected. "
        ++ jsStringifyTop md)) := by
  simp only [fetchMessages, hg, hb, hok, htr, hdata,
    Bool.true_eq_false, ite_false]

/-- After a run that polls to 'completed', the call returns whatever
value step 5 produces. -/
theorem createThread_fetch {t : NetTrace} {fuel : Nat}
    {r1 r2 r3 : JsResponse} {b1 b2 b3 i1 i3 st0 : Js}
    (hc : t.createThread = .ok r1) (hb1 : r1.body = .ok b1)
    (hok1 : r1.ok = true) (hid1 : b1.get "id" = .ok i1)
    (hm : t.addMessage = .ok r2) (hb2 : r2.body = .ok b2)
    (hok2 : r2.ok = true)
    (hr : t.startRun = .ok r3) (hb3 : r3.body = .ok b3)
    (hok3 : r3.ok = true) (hid3 : b3.get "id" = .ok i3)
    (hst : b3.get "status" = .ok st0)
    (hpoll : pollLoop t.poll st0 0 fuel = some (.done (Js.str "completed")))
    {v : Js} (hfetch : fetchMessages t.getMessages = .ok v) :
    createThreadWithMessage t fuel = some v := by
  rw [createThreadWithMessage, clientBody_poll_done hc hb1 hok1 hid1 hm hb2
    hok2 hr hb3 hok3 hid3 hst hpoll, if_neg (by simp [jsStrEq]), hfetch]

/-- C8: after the run completes, the client lists the thread's
messages, selects the first entry whose role is 'assistant', and
returns its primary text payload (content[0]?.text?.value); if no
assistant entry exists among the listed messages, or its content is
malformed (content or text payload falsy), the call returns the
'No response from assistant.' error string, and an empty message list
yields the 'No messages found' error string. -/
theorem c8_assistant_extraction :
    (∀ (t : NetTrace) (fuel : Nat) (r5 : JsResponse) (md am : Js)
      (pre rest : List Js),
      StepsCompleted t fuel r5 md →
      optChainField md "data" = .arr (pre ++ am :: rest) →
      (∀ m ∈ pre, ∃ rv, m.get "role" = .ok rv ∧
        jsStrEq rv "assistant" = false) →
      am.get "role" = .ok (Js.str "assistant") →
      (optChainField am "content").truthy = true →
      (primaryText (optChainField am "content")).truthy = true →
      createThreadWithMessage t fuel =
        some (primaryText (optChainField am "content"))) ∧
    (∀ (t : NetTrace) (fuel : Nat) (r5 : JsResponse) (md : Js)
      (ms : List Js),
      StepsCompleted t fuel r5 md →
      optChainField md "data" = .arr ms → ms ≠ [] →
      (∀ m ∈ ms, ∃ rv, m.get "role" = .ok rv ∧
        jsStrEq rv "assistant" = false) →
      createThreadWithMessage t fuel =
        some (Js.str "No response from assistant.")) ∧
    (∀ (t : NetTrace) (fuel : Nat) (r5 : JsResponse) (md am : Js)
      (ms : List Js),
      StepsCompleted t fuel r5 md →
      optChainField md "data" = .arr ms → ms ≠ [] →
      findAssistant ms = .ok (some am) →
      ((optChainField am "content").truthy = false ∨
        (primaryText (optChainField am "content")).truthy = false) →
      createThreadWithMessage t fuel =
        some (Js.str "No response from assistant.")) ∧
    (∀ (t : NetTrace) (fuel : Nat) (r5 : JsResponse) (md : Js),
      StepsCompleted t fuel r5 md →
      optChainField md "data" = .arr [] →
      createThreadWithMessage t fuel =
        some (Js.str
          ("No messages found or the response structure is unexpected. "
            ++ jsStringifyTop md))) := by
  refine ⟨?_, ?_, ?_, ?_⟩
  · intro t fuel r5 md am pre rest h hdata hpre ham hct hpt
    obtain ⟨r1, r2, r3, b1, b2, b3, i1, i3, st0, hc, hb1, hok1, hid1, hm,
      hb2, hok2, hr, hb3, hok3, hid3, hst, hpoll, hg, hbm, hokm, htr⟩ := h
    have hfind := findAssistant_found pre am rest hpre ham
    have hfetch := fetchMessages_assistant hg hbm hokm htr hdata
      (by simp) hfind
    simp only [hct, hpt, reduceIte] at hfetch
    exact createThread_fetch hc hb1 hok1 hid1 hm hb2 hok2 hr hb3 hok3 hid3
      hst hpoll hfetch
  · intro t fuel r5 md ms h hdata hne hroles
    obtain ⟨r1, r2, r3, b1, b2, b3, i1, i3, st0, hc, hb1, hok1, hid1, hm,
      hb2, hok2, hr, hb3, hok3, hid3, hst, hpoll, hg, hbm, hokm, htr⟩ := h
    have hfetch := fetchMessages_noassistant hg hbm hokm htr hdata hne
      (findAssistant_none ms hroles)
    exact createThread_fetch hc hb1 hok1 hid1 hm hb2 hok2 hr hb3 hok3 hid3
      hst hpoll hfetch
  · intro t fuel r5 md am ms h hdata hne hfind hmal
    obtain ⟨r1, r2, r3, b1, b2, b3, i1, i3, st0, hc, hb1, hok1, hid1, hm,
      hb2, hok2, hr, hb3, hok3, hid3, hst, hpoll, hg, hbm, hokm, htr⟩ := h
    have hfetch := fetchMessages_assistant hg hbm hokm htr hdata hne hfind
    rcases hmal with hc0 | hp0
    · simp only [hc0, Bool.false_eq_true, ite_false] at hfetch
      exact createThread_fetch hc hb1 hok1 hid1 hm hb2 hok2 hr hb3 hok3
        hid3 hst hpoll hfetch
    · by_cases hct : (optChainField am "content").truthy = true
      · simp only [hct, reduceIte, hp0, Bool.false_eq_true, ite_false]
          at hfetch
        exact createThread_fetch hc hb1 hok1 hid1 hm hb2 hok2 hr hb3 hok3
          hid3 hst hpoll hfetch
      · rw [Bool.not_eq_true] at hct
        simp only [hct, Bool.false_eq_true, ite_false] at hfetch
        exact createThread_fetch hc hb1 hok1 hid1 hm hb2 hok2 hr hb3 hok3
          hid3 hst hpoll hfetch
  · intro t fuel r5 md h hdata
    obtain ⟨r1, r2, r3, b1, b2, b3, i1, i3, st0, hc, hb1, hok1, hid1, hm,
      hb2, hok2, hr, hb3, hok3, hid3, hst, hpoll, hg, hbm, hokm, htr⟩ := h
    have hfetch := fetchMessages_empty hg hbm hokm htr hdata
    exact createThread_fetch hc hb1 hok1 hid1 hm hb2 hok2 hr hb3 hok3 hid3
      hst hpoll hfetch

/-- Witness for c8_assistant_extraction: a trace whose single listed
message has role 'assistant' and text value 'hi'. -/
theorem c8_assistant_extraction_witness :
    createThreadWithMessage
      ⟨okResp (.obj [("id", .str "t1")]),
       okResp (.obj []),
       okResp (.obj [("id", .str "r1"), ("status", .str "queued")]),
       fun _ => okResp (.obj [("status", .str "completed")]),
       okResp (.obj [("data", .arr [.obj [("role", .str "assistant"),
         ("content", .arr [.obj [("text", .obj [("value", .str "hi")])]])]])])⟩
      2 = some (.str "hi") :=
  (c8_assistant_extraction.1
    ⟨okResp (.obj [("id", .str "t1")]),
     okResp (.obj []),
     okResp (.obj [("id", .str "r1"), ("status", .str "queued")]),
     fun _ => okResp (.obj [("status", .str "completed")]),
     okResp (.obj [("data", .arr [.obj [("role", .str "assistant"),
       ("content", .arr [.obj [("text", .obj [("value", .str "hi")])]])]])])⟩
    2
    ⟨true, 200, .ok (.obj [("data", .arr [.obj [("role", .str "assistant"),
      ("content", .arr [.obj [("text", .obj [("value", .str "hi")])]])]])])⟩
    (.obj [("data", .arr [.obj [("role", .str "assistant"),
      ("content", .arr [.obj [("text", .obj [("value", .str "hi")])]])]])])
    (.obj [("role", .str "assistant"),
      ("content", .arr [.obj [("text", .obj [("value", .str "hi")])]])])
    [] []
    ⟨⟨true, 200, .ok (.obj [("id", .str "t1")])⟩,
     ⟨true, 200, .ok (.obj [])⟩,
     ⟨true, 200, .ok (.obj [("id", .str "r1"), ("status", .str "queued")])⟩,
     .obj [("id", .str "t1")], .obj [],
     .obj [("id", .str "r1"), ("status", .str "queued")],
     .str "t1", .str "r1", .str "queued",
     rfl, rfl, rfl, rfl, rfl, rfl, rfl, rfl, rfl, rfl, rfl, rfl, rfl, rfl,
     rfl, rfl, rfl⟩
    rfl (by simp) rfl rfl rfl).trans rfl

end PFDA
